import Mathlib

/-!
Shallow embedding of the debounced event-confirmation engines of the
Jetson Orin Inventory Vision System:

* `backend/sales_attribution.py` — `SalesAttributionEngine`
* `backend/alerts.py` — `AlertEngine`

Modeling conventions:

* Timestamps and durations (Python floats) are modeled over an arbitrary
  linear ordered commutative ring `T`: the engines only ever add, subtract,
  multiply and compare them.  Concrete evaluations below instantiate
  `T := ℤ` so that they reduce in the kernel.
* Inventory counts are `ℤ` (Python `int`).
* Python dicts appearing as engine *inputs* (inventory snapshots, freshness
  state, the low-stock threshold map) are association lists in insertion
  order, looked up first-match with a default.
* Dict-valued engine *state* (`pending_decreases`, `last_sale_time`,
  `pending_low_stock`, `pending_expiration`, `last_alert_time`,
  `sales_by_product`) is modeled as a total function from keys to values,
  with the dict's "absent" reading equal to the default value used by the
  code (`[]`, `none`, `0`).  In the translated code paths, key presence is
  never observable apart from that default: `pending_decreases` is a
  `defaultdict(list)` whose empty entries are deleted every tick, the
  membership tests guard operations that are no-ops on an absent/empty
  entry, and `last_sale_time` / `last_alert_time` are only read via
  membership-then-index, which is exactly an `Option` lookup.
* Pure side effects that do not feed back into the confirmation logic are
  not modeled: logging, SMTP email delivery, SQLite persistence, the
  `active_alerts` cache (write-only from `evaluate`), human-readable
  `message` strings and generated `alert_id`s.
-/

namespace IVS

/-- First-match lookup in an association list with a default
(Python `dict.get(k, default)`). -/
def lookupD {α : Type} : List (String × α) → String → α → α
  | [], _, d => d
  | (k', v) :: rest, k, d => if k' = k then v else lookupD rest k d

/-- Point update of a function-modeled dict (`d[k] = v`). -/
def updFn {α : Type} (f : String → α) (k : String) (v : α) : String → α :=
  fun q => if q = k then v else f q

/-- Point update of a two-key function-modeled dict (`d[(k1, k2)] = v`). -/
def updFn2 {α : Type} (f : String → String → α) (k1 k2 : String) (v : α) :
    String → String → α :=
  fun a b => if a = k1 ∧ b = k2 then v else f a b

/-- Keep the `n` most recent elements of a chronologically ordered list. -/
def takeLast {α : Type} (n : ℕ) (l : List α) : List α := l.drop (l.length - n)

/-- Append to a `collections.deque(maxlen = n)`: the oldest element is
dropped once the capacity `n` is exceeded. -/
def pushCap {α : Type} (n : ℕ) (l : List α) (x : α) : List α := takeLast n (l ++ [x])

/-- An inventory snapshot mapping product names to counts
(`Dict[str, int]`, association list in insertion order). -/
abbrev Inv : Type := List (String × ℤ)

/-- Sum of all counts in a snapshot (`sum(inventory.values())`). -/
def totalInv (inv : Inv) : ℤ := (inv.map Prod.snd).sum

/-! ## Sales attribution engine (`backend/sales_attribution.py`) -/

/-- Constructor arguments of `SalesAttributionEngine.__init__`. -/
structure SalesConfig (T : Type) where
  confirmIntervals : ℕ
  minDeltaThreshold : ℤ
  cooldownSeconds : T
  snapshotInterval : T

/-- A sale event dictionary as built in `_detect_attributed_sales`. -/
structure SaleEvent (T : Type) where
  productName : String
  quantityDelta : ℤ
  inventoryBefore : ℤ
  inventoryAfter : ℤ
  timestampUtc : T
  validated : Bool
deriving DecidableEq

variable {T : Type} [LinearOrderedCommRing T]

/-- Mutable state of a `SalesAttributionEngine` instance. -/
structure SalesState (T : Type) where
  snapshotHistory : List (T × Inv)
  lastSaleTime : String → Option T
  pendingDecreases : String → List (T × ℤ)
  totalSalesDetected : ℕ
  salesByProduct : String → ℤ
  falsePositivesFiltered : ℕ

/-- Engine state right after `__init__`. -/
def SalesState.init : SalesState T :=
  ⟨[], fun _ => none, fun _ => [], 0, fun _ => 0, 0⟩

/-- `SalesAttributionEngine._validate_decrease`: the decrease for `p` must
have persisted over the last `confirm_intervals + 1` snapshots — every
later count strictly below the earliest one (a higher count, or a return
to the initial count, reads as "not a persistent decrease"). -/
def validateDecrease (cfg : SalesConfig T) (hist : List (T × Inv)) (p : String) : Bool :=
  if hist.length < cfg.confirmIntervals + 1 then false
  else
    let recent := takeLast (cfg.confirmIntervals + 1) hist
    let counts : List ℤ := recent.map (fun s => lookupD s.2 p 0)
    let initial : ℤ := counts.headD 0
    (counts.drop 1).all (fun c => !(decide (initial < c)) && !(decide (c = initial)))

/-- `SalesAttributionEngine._check_cooldown`: true when no prior sale for
the product is recorded (`lastSale = none`), or the recorded one is at
least `cooldown_seconds` old. -/
def salesCheckCooldown (cfg : SalesConfig T) (lastSale : Option T) (t : T) : Bool :=
  match lastSale with
  | none => true
  | some t0 => !(decide (t - t0 < cfg.cooldownSeconds))

/-- Per-product delta of the tick
(`current_count - previous_count`, absent products counting as `0`). -/
def stepDelta (prevInv curInv : Inv) (p : String) : ℤ :=
  lookupD curInv p 0 - lookupD prevInv p 0

/-- Pending-queue update for one product on one tick (lines 117–129 of
`_detect_attributed_sales`): a decrease of at least
`min_delta_threshold` appends `(timestamp, delta)`, an increase clears
the queue, anything else leaves it untouched. -/
def stepPend1 (cfg : SalesConfig T) (t : T) (prevInv curInv : Inv) (p : String)
    (pendp : List (T × ℤ)) : List (T × ℤ) :=
  if stepDelta prevInv curInv p < 0 ∧
      cfg.minDeltaThreshold ≤ |stepDelta prevInv curInv p| then
    pendp ++ [(t, stepDelta prevInv curInv p)]
  else if 0 < stepDelta prevInv curInv p then []
  else pendp

/-- Emission decision and payload for one product on one tick (lines
131–157 of `_detect_attributed_sales`), as a function of that product's
pending queue `pendp` and last-sale time `lsp` when its loop iteration
runs: a validated sale is emitted iff the updated pending queue is
nonempty, `_validate_decrease` accepts, and `_check_cooldown` allows. -/
def stepEmit? (cfg : SalesConfig T) (t : T) (hist : List (T × Inv))
    (prevInv curInv : Inv) (p : String)
    (pendp : List (T × ℤ)) (lsp : Option T) : Option (SaleEvent T) :=
  let delta := stepDelta prevInv curInv p
  let pend1p := stepPend1 cfg t prevInv curInv p pendp
  if pend1p ≠ [] ∧ validateDecrease cfg hist p = true ∧
      salesCheckCooldown cfg lsp t = true then
    let quantitySold := if delta < 0 then |delta| else |(pend1p.headD (t, 0)).2|
    some
      { productName := p
        quantityDelta := quantitySold
        inventoryBefore :=
          if delta = 0 then lookupD prevInv p 0 + quantitySold else lookupD prevInv p 0
        inventoryAfter := lookupD curInv p 0
        timestampUtc := t
        validated := true }
  else none

/-- Body of the per-product loop of `_detect_attributed_sales`
(lines 111–160): update the pending queue from this tick's delta, then
emit a validated sale when `stepEmit?` fires, in which case the pending
queue is cleared and the last-sale time recorded.  The accumulator
carries the emitted events, the `pending_decreases` map and the
`last_sale_time` map. -/
def salesStep (cfg : SalesConfig T) (t : T) (hist : List (T × Inv))
    (prevInv curInv : Inv)
    (acc : List (SaleEvent T) × (String → List (T × ℤ)) × (String → Option T))
    (p : String) :
    List (SaleEvent T) × (String → List (T × ℤ)) × (String → Option T) :=
  let events := acc.1
  let pend := acc.2.1
  let lastSale := acc.2.2
  match stepEmit? cfg t hist prevInv curInv p (pend p) (lastSale p) with
  | some ev => (events ++ [ev], updFn pend p [], updFn lastSale p (some t))
  | none => (events, updFn pend p (stepPend1 cfg t prevInv curInv p (pend p)), lastSale)

/-- `SalesAttributionEngine._cleanup_pending_decreases`: drop pending
entries older than `snapshot_interval * (confirm_intervals + 2)`; an
entry whose list becomes empty is deleted, which in the function model is
the same as mapping it to `[]`. -/
def cleanupPendingDecreases (cfg : SalesConfig T) (t : T)
    (pend : String → List (T × ℤ)) : String → List (T × ℤ) :=
  fun p => (pend p).filter
    (fun e => decide (t - e.1 < cfg.snapshotInterval * ((cfg.confirmIntervals : T) + 2)))

/-- Consecutive strict-decrease check of `_validate_total_decrease`
(`totals[i] >= totals[i-1]` anywhere fails the validation). -/
def strictlyDecreasing : List ℤ → Bool
  | a :: b :: rest => decide (b < a) && strictlyDecreasing (b :: rest)
  | _ => true

/-- `SalesAttributionEngine._validate_total_decrease`, threading the
`false_positives_filtered` counter (incremented on the too-small branch
and on the not-consistently-decreasing branch, once per call). -/
def validateTotalDecrease (cfg : SalesConfig T) (hist : List (T × Inv))
    (totalDelta : ℤ) (fp : ℕ) : Bool × ℕ :=
  if |totalDelta| < cfg.minDeltaThreshold * 2 then (false, fp + 1)
  else if hist.length < cfg.confirmIntervals + 1 then (false, fp)
  else
    let totals := (takeLast (cfg.confirmIntervals + 1) hist).map (fun s => totalInv s.2)
    if strictlyDecreasing totals then (true, fp) else (false, fp + 1)

/-- Union of the product names of two snapshots
(`set(current) | set(previous)`; the Python set's enumeration order is
unspecified, this model fixes current-then-previous first-occurrence
order, which only affects the ordering of same-tick events). -/
def allProducts (curInv prevInv : Inv) : List String :=
  (curInv.map Prod.fst ++ prevInv.map Prod.fst).dedup

/-- `SalesAttributionEngine._detect_attributed_sales`: per-product loop,
then pruning of stale pending entries, then the strictly validated
"Unknown" fallback when the total count dropped but nothing was
attributed this tick.  Expects the current snapshot already appended to
`snapshotHistory` (as `process_snapshot` does) and at least two retained
snapshots. -/
def detectAttributedSales (cfg : SalesConfig T) (st : SalesState T) (t : T) :
    List (SaleEvent T) × SalesState T :=
  let hist := st.snapshotHistory
  let curInv := (hist.getLastD (t, [])).2
  let prevInv := (hist.dropLast.getLastD (t, [])).2
  let folded := (allProducts curInv prevInv).foldl
    (salesStep cfg t hist prevInv curInv) ([], st.pendingDecreases, st.lastSaleTime)
  let events := folded.1
  let pend2 := cleanupPendingDecreases cfg t folded.2.1
  let totalDelta := totalInv curInv - totalInv prevInv
  if totalDelta < 0 ∧ events = [] then
    let v := validateTotalDecrease cfg hist totalDelta st.falsePositivesFiltered
    if v.1 then
      let ev : SaleEvent T :=
        { productName := "Unknown"
          quantityDelta := |totalDelta|
          inventoryBefore := totalInv prevInv
          inventoryAfter := totalInv curInv
          timestampUtc := t
          validated := false }
      (events ++ [ev],
       { st with pendingDecreases := pend2, lastSaleTime := folded.2.2,
                 falsePositivesFiltered := v.2 })
    else
      (events,
       { st with pendingDecreases := pend2, lastSaleTime := folded.2.2,
                 falsePositivesFiltered := v.2 })
  else
    (events,
     { st with pendingDecreases := pend2, lastSaleTime := folded.2.2 })

/-- `SalesAttributionEngine.process_snapshot`: append the snapshot to the
bounded history (capacity `confirm_intervals + 1`), return nothing until
two snapshots are retained, otherwise detect sales and update the
statistics counters. -/
def processSnapshot (cfg : SalesConfig T) (st : SalesState T)
    (inventory : Inv) (t : T) : List (SaleEvent T) × SalesState T :=
  let hist := pushCap (cfg.confirmIntervals + 1) st.snapshotHistory (t, inventory)
  let st1 := { st with snapshotHistory := hist }
  if hist.length < 2 then ([], st1)
  else
    let r := detectAttributedSales cfg st1 t
    (r.1,
     { r.2 with
        totalSalesDetected := r.2.totalSalesDetected + r.1.length
        salesByProduct := r.1.foldl
          (fun m e => updFn m e.productName (m e.productName + e.quantityDelta))
          r.2.salesByProduct })

/-- Feed a sequence of `(inventory, timestamp)` snapshots to the engine,
collecting the event list returned by each `process_snapshot` call. -/
def runSales (cfg : SalesConfig T) : SalesState T → List (Inv × T) → List (List (SaleEvent T))
  | _, [] => []
  | st, (inv, t) :: rest =>
    let r := processSnapshot cfg st inv t
    r.1 :: runSales cfg r.2 rest

/-! ## Alert engine (`backend/alerts.py`) -/

/-- Constructor arguments of `AlertEngine.__init__` that reach the
confirmation logic (`enable_email_alerts` and `persistence_manager` only
feed the unmodeled side-effect layer). -/
structure AlertConfig (T : Type) where
  lowStockThresholds : List (String × ℤ)
  lowStockConfirmIntervals : ℕ
  expirationConfirmIntervals : ℕ
  alertCooldownSeconds : T

/-- One entry of the `freshness_state` mapping consumed by
`AlertEngine._evaluate_expiration` (the fields it reads). -/
structure Freshness (T : Type) where
  isExpired : Bool
  ageDays : T
  expirationDays : ℤ
deriving DecidableEq

/-- Alert-kind/entity-specific metadata (the fields of the `metadata`
dict built for each alert kind). -/
inductive AlertMeta (T : Type) where
  | lowStock (currentCount : ℤ) (threshold : ℤ)
  | expiration (ageDays : T) (expirationDays : ℤ)
deriving DecidableEq

/-- An alert record as built by `AlertEngine` (`Alert` in `alerts.py`);
severities are the `AlertSeverity` string constants. -/
structure Alert (T : Type) where
  alertType : String
  productName : String
  severity : String
  timestampUtc : T
  meta : AlertMeta T
deriving DecidableEq

/-- Mutable state of an `AlertEngine` instance; `last_alert_time` is
keyed by the `(alert_type, product_name)` pair, curried here. -/
structure AlertState (T : Type) where
  pendingLowStock : String → List (T × ℤ)
  pendingExpiration : String → List (T × T)
  lastAlertTime : String → String → Option T
  totalAlertsTriggered : ℕ
  alertsByType : String → ℕ
  alertsSuppressedByCooldown : ℕ

/-- Alert engine state right after `__init__`. -/
def AlertState.init : AlertState T :=
  ⟨fun _ => [], fun _ => [], fun _ _ => none, 0, fun _ => 0, 0⟩

/-- `AlertEngine._check_cooldown` for one `(alert_type, product_name)`
key whose recorded last-alert time is `lat`, threading the
`alerts_suppressed_by_cooldown` counter it increments when it denies. -/
def alertCheckCooldown (cfg : AlertConfig T) (lat : Option T) (t : T) (supp : ℕ) :
    Bool × ℕ :=
  match lat with
  | none => (true, supp)
  | some t0 =>
    if t - t0 < cfg.alertCooldownSeconds then (false, supp + 1) else (true, supp)

/-- `AlertEngine._validate_low_stock`: at least
`low_stock_confirm_intervals` pending observations, none above the
threshold. -/
def validateLowStock (cfg : AlertConfig T) (pending : List (T × ℤ))
    (threshold : ℤ) : Bool :=
  if pending.length < cfg.lowStockConfirmIntervals then false
  else pending.all (fun e => !(decide (threshold < e.2)))

/-- `AlertEngine._validate_expiration`: at least
`expiration_confirm_intervals` pending observations (each one was
recorded while expired). -/
def validateExpiration (cfg : AlertConfig T) (pending : List (T × T)) : Bool :=
  if pending.length < cfg.expirationConfirmIntervals then false else true

/-- Pending-deque update for one monitored product on one low-stock
evaluation: at or below the threshold, push `(timestamp, count)` onto
the bounded deque (capacity `low_stock_confirm_intervals + 1`); above
the threshold, clear it. -/
def lowStockPend1 (cfg : AlertConfig T) (t : T) (inv : Inv) (entry : String × ℤ)
    (pendp : List (T × ℤ)) : List (T × ℤ) :=
  if lookupD inv entry.1 0 ≤ entry.2 then
    pushCap (cfg.lowStockConfirmIntervals + 1) pendp (t, lookupD inv entry.1 0)
  else []

/-- Emission decision and payload for one monitored product on one
low-stock evaluation, as a function of its pending deque `pendp` and its
`("low_stock", product)` cooldown record `latp` when its loop iteration
runs: an alert is emitted iff the count is at or below the threshold,
`_validate_low_stock` accepts the updated deque, and `_check_cooldown`
allows; its severity is `critical` exactly when the count is `0`. -/
def lowStockEmit? (cfg : AlertConfig T) (t : T) (inv : Inv) (entry : String × ℤ)
    (pendp : List (T × ℤ)) (latp : Option T) : Option (Alert T) :=
  let currentCount := lookupD inv entry.1 0
  if currentCount ≤ entry.2 then
    if validateLowStock cfg (lowStockPend1 cfg t inv entry pendp) entry.2 then
      if (alertCheckCooldown cfg latp t 0).1 then
        some
          { alertType := "low_stock"
            productName := entry.1
            severity := if currentCount = 0 then "critical" else "warning"
            timestampUtc := t
            meta := .lowStock currentCount entry.2 }
      else none
    else none
  else none

/-- Body of the per-product loop of `AlertEngine._evaluate_low_stock`
(lines 366–408): update the pending deque, emit when `lowStockEmit?`
fires (clearing the deque and recording the cooldown), and thread the
suppression counter that `_check_cooldown` increments whenever it is
consulted and denies. -/
def lowStockStep (cfg : AlertConfig T) (t : T) (inv : Inv)
    (acc : List (Alert T) × (String → List (T × ℤ)) × (String → String → Option T) × ℕ)
    (entry : String × ℤ) :
    List (Alert T) × (String → List (T × ℤ)) × (String → String → Option T) × ℕ :=
  let alerts := acc.1
  let pend := acc.2.1
  let lat := acc.2.2.1
  let supp := acc.2.2.2
  let p := entry.1
  let consulted : Bool :=
    lookupD inv p 0 ≤ entry.2 ∧
      validateLowStock cfg (lowStockPend1 cfg t inv entry (pend p)) entry.2 = true
  let supp1 := if consulted then (alertCheckCooldown cfg (lat "low_stock" p) t supp).2 else supp
  match lowStockEmit? cfg t inv entry (pend p) (lat "low_stock" p) with
  | some a =>
    (alerts ++ [a], updFn pend p [], updFn2 lat "low_stock" p (some t), supp1)
  | none =>
    (alerts, updFn pend p (lowStockPend1 cfg t inv entry (pend p)), lat, supp1)

/-- Pending-deque update for one freshness entry on one expiration
evaluation: while expired, push `(timestamp, age_days)` onto the bounded
deque (capacity `expiration_confirm_intervals + 1`); once not expired,
clear it. -/
def expirationPend1 (cfg : AlertConfig T) (t : T) (entry : String × Freshness T)
    (pendp : List (T × T)) : List (T × T) :=
  if entry.2.isExpired then
    pushCap (cfg.expirationConfirmIntervals + 1) pendp (t, entry.2.ageDays)
  else []

/-- Emission decision and payload for one freshness entry on one
expiration evaluation, as a function of its pending deque `pendp` and
its `("expiration", product)` cooldown record `latp` when its loop
iteration runs. -/
def expirationEmit? (cfg : AlertConfig T) (t : T) (entry : String × Freshness T)
    (pendp : List (T × T)) (latp : Option T) : Option (Alert T) :=
  if entry.2.isExpired then
    if validateExpiration cfg (expirationPend1 cfg t entry pendp) then
      if (alertCheckCooldown cfg latp t 0).1 then
        some
          { alertType := "expiration"
            productName := entry.1
            severity := "warning"
            timestampUtc := t
            meta := .expiration entry.2.ageDays entry.2.expirationDays }
      else none
    else none
  else none

/-- Body of the per-product loop of `AlertEngine._evaluate_expiration`
(lines 424–464), structured like `lowStockStep`. -/
def expirationStep (cfg : AlertConfig T) (t : T)
    (acc : List (Alert T) × (String → List (T × T)) × (String → String → Option T) × ℕ)
    (entry : String × Freshness T) :
    List (Alert T) × (String → List (T × T)) × (String → String → Option T) × ℕ :=
  let alerts := acc.1
  let pend := acc.2.1
  let lat := acc.2.2.1
  let supp := acc.2.2.2
  let p := entry.1
  let consulted : Bool :=
    entry.2.isExpired ∧
      validateExpiration cfg (expirationPend1 cfg t entry (pend p)) = true
  let supp1 := if consulted then (alertCheckCooldown cfg (lat "expiration" p) t supp).2 else supp
  match expirationEmit? cfg t entry (pend p) (lat "expiration" p) with
  | some a =>
    (alerts ++ [a], updFn pend p [], updFn2 lat "expiration" p (some t), supp1)
  | none =>
    (alerts, updFn pend p (expirationPend1 cfg t entry (pend p)), lat, supp1)

/-- `AlertEngine.evaluate`: low-stock evaluation over the configured
threshold map, then expiration evaluation over the freshness mapping,
returning the newly triggered alerts and updating the statistics the
emission loop maintains. -/
def evaluate (cfg : AlertConfig T) (st : AlertState T) (inv : Inv)
    (freshness : List (String × Freshness T)) (t : T) :
    List (Alert T) × AlertState T :=
  let ls := cfg.lowStockThresholds.foldl (lowStockStep cfg t inv)
    ([], st.pendingLowStock, st.lastAlertTime, st.alertsSuppressedByCooldown)
  let ex := freshness.foldl (expirationStep cfg t)
    ([], st.pendingExpiration, ls.2.2.1, ls.2.2.2)
  let alerts := ls.1 ++ ex.1
  (alerts,
   { pendingLowStock := ls.2.1
     pendingExpiration := ex.2.1
     lastAlertTime := ex.2.2.1
     totalAlertsTriggered := st.totalAlertsTriggered + alerts.length
     alertsByType := alerts.foldl
       (fun m a => updFn m a.alertType (m a.alertType + 1)) st.alertsByType
     alertsSuppressedByCooldown := ex.2.2.2 })

/-- Feed a sequence of `(inventory, freshness, timestamp)` readings to
the alert engine, collecting the alerts returned by each `evaluate`
call. -/
def runAlerts (cfg : AlertConfig T) :
    AlertState T → List (Inv × List (String × Freshness T) × T) → List (List (Alert T))
  | _, [] => []
  | st, (inv, fr, t) :: rest =>
    let r := evaluate cfg st inv fr t
    r.1 :: runAlerts cfg r.2 rest

/-! ## Characterization of one `process_snapshot` tick

Proof-layer descriptions of what one tick does, in terms of the
pre-tick state; each is proved against the translated definitions. -/

/-- The snapshot history right after the tick appended `(t, inv)`. -/
def tickHist (cfg : SalesConfig T) (st : SalesState T) (inv : Inv) (t : T) :
    List (T × Inv) :=
  pushCap (cfg.confirmIntervals + 1) st.snapshotHistory (t, inv)

/-- The previous snapshot (`snapshot_history[-2]`) seen by the tick. -/
def tickPrevInv (cfg : SalesConfig T) (st : SalesState T) (inv : Inv) (t : T) : Inv :=
  ((tickHist cfg st inv t).dropLast.getLastD (t, [])).2

/-- The attributed (validated) sale events one tick emits: one per
product of the union whose `stepEmit?` fires against the pre-tick
state. -/
def tickAttributed (cfg : SalesConfig T) (st : SalesState T) (inv : Inv) (t : T) :
    List (SaleEvent T) :=
  (allProducts inv (tickPrevInv cfg st inv t)).filterMap
    (fun p => stepEmit? cfg t (tickHist cfg st inv t) (tickPrevInv cfg st inv t) inv p
      (st.pendingDecreases p) (st.lastSaleTime p))

/-- The unattributed fallback part of one tick's output. -/
def tickUnknown (cfg : SalesConfig T) (st : SalesState T) (inv : Inv) (t : T) :
    List (SaleEvent T) :=
  let totalDelta := totalInv inv - totalInv (tickPrevInv cfg st inv t)
  if totalDelta < 0 ∧ tickAttributed cfg st inv t = [] ∧
      (validateTotalDecrease cfg (tickHist cfg st inv t) totalDelta
        st.falsePositivesFiltered).1 = true then
    [{ productName := "Unknown", quantityDelta := |totalDelta|,
       inventoryBefore := totalInv (tickPrevInv cfg st inv t),
       inventoryAfter := totalInv inv, timestampUtc := t, validated := false }]
  else []

/-! ## Basic lemmas about the modeling primitives -/

theorem updFn_self {α : Type} (f : String → α) (k : String) (v : α) :
    updFn f k v k = v := by
  simp [updFn]

theorem updFn_ne {α : Type} (f : String → α) (k : String) (v : α) {q : String}
    (h : q ≠ k) : updFn f k v q = f q := by
  simp [updFn, h]

theorem updFn2_same {α : Type} (f : String → String → α) (k1 k2 : String) (v : α) :
    updFn2 f k1 k2 v k1 k2 = v := by
  simp [updFn2]

theorem updFn2_ne {α : Type} (f : String → String → α) (k1 k2 : String) (v : α)
    {a b : String} (h : ¬(a = k1 ∧ b = k2)) : updFn2 f k1 k2 v a b = f a b := by
  simp only [updFn2, if_neg h]

theorem length_takeLast_le {α : Type} (n : ℕ) (l : List α) :
    (takeLast n l).length ≤ n := by
  simp only [takeLast, List.length_drop]
  omega

theorem length_pushCap_le {α : Type} (n : ℕ) (l : List α) (x : α) :
    (pushCap n l x).length ≤ n :=
  length_takeLast_le n (l ++ [x])

theorem getLastD_takeLast {α : Type} (n : ℕ) (hn : 1 ≤ n) (l : List α) (d : α) :
    (takeLast n l).getLastD d = l.getLastD d := by
  rcases l with _ | ⟨a, l⟩
  · simp [takeLast]
  · simp only [takeLast, List.getLastD_eq_getLast?, List.getLast?_eq_getElem?,
      List.getElem?_drop, List.length_drop]
    have h : (a :: l).length - n + ((a :: l).length - ((a :: l).length - n) - 1) =
        (a :: l).length - 1 := by
      simp only [List.length_cons]
      omega
    rw [h]

theorem getLastD_pushCap {α : Type} (n : ℕ) (hn : 1 ≤ n) (l : List α) (x d : α) :
    (pushCap n l x).getLastD d = x := by
  rw [pushCap, getLastD_takeLast n hn]
  simp

theorem mem_keys_of_lookupD_ne {α : Type} (l : List (String × α)) (p : String)
    (d : α) (h : lookupD l p d ≠ d) : p ∈ l.map Prod.fst := by
  induction l with
  | nil => simp [lookupD] at h
  | cons kv rest ih =>
    by_cases hk : kv.1 = p
    · simp [hk]
    · rw [show kv = (kv.1, kv.2) from rfl, lookupD, if_neg hk] at h
      simpa using Or.inr (ih h)

/-! ## Characterization of the per-product sales loop -/

variable {cfg : SalesConfig T} {t : T} {hist : List (T × Inv)} {prevInv curInv : Inv}

theorem salesStep_fst (acc : List (SaleEvent T) × (String → List (T × ℤ)) × (String → Option T))
    (p : String) :
    (salesStep cfg t hist prevInv curInv acc p).1 =
      acc.1 ++ (stepEmit? cfg t hist prevInv curInv p (acc.2.1 p) (acc.2.2 p)).toList := by
  rcases h : stepEmit? cfg t hist prevInv curInv p (acc.2.1 p) (acc.2.2 p) with _ | e <;>
    simp [salesStep, h]

theorem salesStep_pend_ne (acc : List (SaleEvent T) × (String → List (T × ℤ)) × (String → Option T))
    (p : String) {q : String} (h : q ≠ p) :
    (salesStep cfg t hist prevInv curInv acc p).2.1 q = acc.2.1 q := by
  rcases he : stepEmit? cfg t hist prevInv curInv p (acc.2.1 p) (acc.2.2 p) with _ | e <;>
    simp [salesStep, he, updFn_ne _ _ _ h]

theorem salesStep_ls_ne (acc : List (SaleEvent T) × (String → List (T × ℤ)) × (String → Option T))
    (p : String) {q : String} (h : q ≠ p) :
    (salesStep cfg t hist prevInv curInv acc p).2.2 q = acc.2.2 q := by
  rcases he : stepEmit? cfg t hist prevInv curInv p (acc.2.1 p) (acc.2.2 p) with _ | e <;>
    simp [salesStep, he, updFn_ne _ _ _ h]

theorem salesStep_pend_self (acc : List (SaleEvent T) × (String → List (T × ℤ)) × (String → Option T))
    (p : String) :
    (salesStep cfg t hist prevInv curInv acc p).2.1 p =
      if (stepEmit? cfg t hist prevInv curInv p (acc.2.1 p) (acc.2.2 p)).isSome then []
      else stepPend1 cfg t prevInv curInv p (acc.2.1 p) := by
  rcases he : stepEmit? cfg t hist prevInv curInv p (acc.2.1 p) (acc.2.2 p) with _ | e <;>
    simp [salesStep, he, updFn_self]

theorem salesStep_ls_self (acc : List (SaleEvent T) × (String → List (T × ℤ)) × (String → Option T))
    (p : String) :
    (salesStep cfg t hist prevInv curInv acc p).2.2 p =
      if (stepEmit? cfg t hist prevInv curInv p (acc.2.1 p) (acc.2.2 p)).isSome then some t
      else acc.2.2 p := by
  rcases he : stepEmit? cfg t hist prevInv curInv p (acc.2.1 p) (acc.2.2 p) with _ | e <;>
    simp [salesStep, he, updFn_self]

theorem salesFold_pend_notMem (ps : List String) (acc) {q : String} (h : q ∉ ps) :
    (ps.foldl (salesStep cfg t hist prevInv curInv) acc).2.1 q = acc.2.1 q := by
  induction ps generalizing acc with
  | nil => rfl
  | cons p rest ih =>
    have hqp : q ≠ p := by rintro rfl; exact h (List.mem_cons_self _ _)
    rw [List.foldl_cons, ih _ (fun hq => h (List.mem_cons_of_mem _ hq)),
      salesStep_pend_ne _ _ hqp]

theorem salesFold_ls_notMem (ps : List String) (acc) {q : String} (h : q ∉ ps) :
    (ps.foldl (salesStep cfg t hist prevInv curInv) acc).2.2 q = acc.2.2 q := by
  induction ps generalizing acc with
  | nil => rfl
  | cons p rest ih =>
    have hqp : q ≠ p := by rintro rfl; exact h (List.mem_cons_self _ _)
    rw [List.foldl_cons, ih _ (fun hq => h (List.mem_cons_of_mem _ hq)),
      salesStep_ls_ne _ _ hqp]

theorem salesFold_fst (ps : List String) (hnd : ps.Nodup)
    (evs : List (SaleEvent T)) (pend : String → List (T × ℤ)) (ls : String → Option T) :
    (ps.foldl (salesStep cfg t hist prevInv curInv) (evs, pend, ls)).1 =
      evs ++ ps.filterMap (fun p => stepEmit? cfg t hist prevInv curInv p (pend p) (ls p)) := by
  induction ps generalizing evs pend ls with
  | nil => simp
  | cons p rest ih =>
    obtain ⟨hp, hrest⟩ := List.nodup_cons.mp hnd
    rw [List.foldl_cons]
    have hs : salesStep cfg t hist prevInv curInv (evs, pend, ls) p =
        ((salesStep cfg t hist prevInv curInv (evs, pend, ls) p).1,
         (salesStep cfg t hist prevInv curInv (evs, pend, ls) p).2.1,
         (salesStep cfg t hist prevInv curInv (evs, pend, ls) p).2.2) := rfl
    rw [hs, ih hrest]
    have hcong : List.filterMap (fun q => stepEmit? cfg t hist prevInv curInv q
          ((salesStep cfg t hist prevInv curInv (evs, pend, ls) p).2.1 q)
          ((salesStep cfg t hist prevInv curInv (evs, pend, ls) p).2.2 q)) rest =
        List.filterMap (fun q => stepEmit? cfg t hist prevInv curInv q (pend q) (ls q)) rest :=
      List.filterMap_congr (fun q hq => by
        have hqp : q ≠ p := by rintro rfl; exact hp hq
        rw [salesStep_pend_ne _ _ hqp, salesStep_ls_ne _ _ hqp])
    rw [hcong, salesStep_fst]
    rcases he : stepEmit? cfg t hist prevInv curInv p (pend p) (ls p) with _ | e <;>
      simp [List.filterMap_cons, he]

theorem salesFold_pend (ps : List String) (hnd : ps.Nodup)
    (evs : List (SaleEvent T)) (pend : String → List (T × ℤ)) (ls : String → Option T)
    (q : String) :
    (ps.foldl (salesStep cfg t hist prevInv curInv) (evs, pend, ls)).2.1 q =
      if q ∈ ps then
        (if (stepEmit? cfg t hist prevInv curInv q (pend q) (ls q)).isSome then []
         else stepPend1 cfg t prevInv curInv q (pend q))
      else pend q := by
  induction ps generalizing evs pend ls with
  | nil => simp
  | cons p rest ih =>
    obtain ⟨hp, hrest⟩ := List.nodup_cons.mp hnd
    rw [List.foldl_cons]
    have hs : salesStep cfg t hist prevInv curInv (evs, pend, ls) p =
        ((salesStep cfg t hist prevInv curInv (evs, pend, ls) p).1,
         (salesStep cfg t hist prevInv curInv (evs, pend, ls) p).2.1,
         (salesStep cfg t hist prevInv curInv (evs, pend, ls) p).2.2) := rfl
    rw [hs, ih hrest]
    by_cases hq : q = p
    · subst hq
      rw [if_neg hp, if_pos (List.mem_cons_self _ _), salesStep_pend_self]
    · rw [salesStep_pend_ne _ _ hq, salesStep_ls_ne _ _ hq]
      simp only [List.mem_cons, hq, false_or]

theorem salesFold_ls (ps : List String) (hnd : ps.Nodup)
    (evs : List (SaleEvent T)) (pend : String → List (T × ℤ)) (ls : String → Option T)
    (q : String) :
    (ps.foldl (salesStep cfg t hist prevInv curInv) (evs, pend, ls)).2.2 q =
      if q ∈ ps then
        (if (stepEmit? cfg t hist prevInv curInv q (pend q) (ls q)).isSome then some t
         else ls q)
      else ls q := by
  induction ps generalizing evs pend ls with
  | nil => simp
  | cons p rest ih =>
    obtain ⟨hp, hrest⟩ := List.nodup_cons.mp hnd
    rw [List.foldl_cons]
    have hs : salesStep cfg t hist prevInv curInv (evs, pend, ls) p =
        ((salesStep cfg t hist prevInv curInv (evs, pend, ls) p).1,
         (salesStep cfg t hist prevInv curInv (evs, pend, ls) p).2.1,
         (salesStep cfg t hist prevInv curInv (evs, pend, ls) p).2.2) := rfl
    rw [hs, ih hrest]
    by_cases hq : q = p
    · subst hq
      rw [if_neg hp, if_pos (List.mem_cons_self _ _), salesStep_ls_self]
    · rw [salesStep_pend_ne _ _ hq, salesStep_ls_ne _ _ hq]
      simp only [List.mem_cons, hq, false_or]

theorem tickHist_length_le (cfg : SalesConfig T) (st : SalesState T) (inv : Inv) (t : T) :
    (tickHist cfg st inv t).length ≤ cfg.confirmIntervals + 1 :=
  length_pushCap_le _ _ _

theorem curInv_eq (cfg : SalesConfig T) (st : SalesState T) (inv : Inv) (t : T) :
    ((tickHist cfg st inv t).getLastD (t, [])).2 = inv := by
  rw [tickHist, getLastD_pushCap _ (Nat.succ_le_succ (Nat.zero_le _))]

theorem processSnapshot_out (cfg : SalesConfig T) (st : SalesState T) (inv : Inv) (t : T)
    (h2 : 2 ≤ (tickHist cfg st inv t).length) :
    (processSnapshot cfg st inv t).1 =
      tickAttributed cfg st inv t ++ tickUnknown cfg st inv t := by
  have hne : ¬ (tickHist cfg st inv t).length < 2 := by omega
  simp only [processSnapshot]
  rw [show pushCap (cfg.confirmIntervals + 1) st.snapshotHistory (t, inv) =
    tickHist cfg st inv t from rfl]
  rw [if_neg hne]
  simp only [detectAttributedSales, curInv_eq]
  rw [show ((tickHist cfg st inv t).dropLast.getLastD (t, [])).2 =
    tickPrevInv cfg st inv t from rfl]
  have hnod : (allProducts inv (tickPrevInv cfg st inv t)).Nodup := by
    rw [allProducts]; exact List.nodup_dedup _
  rw [salesFold_fst _ hnod]
  simp only [List.nil_append]
  rw [show (allProducts inv (tickPrevInv cfg st inv t)).filterMap
      (fun p => stepEmit? cfg t (tickHist cfg st inv t) (tickPrevInv cfg st inv t) inv p
        (st.pendingDecreases p) (st.lastSaleTime p)) = tickAttributed cfg st inv t from rfl]
  simp only [tickUnknown]
  by_cases hc : totalInv inv - totalInv (tickPrevInv cfg st inv t) < 0 ∧
      tickAttributed cfg st inv t = []
  · rw [if_pos hc]
    by_cases hv : (validateTotalDecrease cfg (tickHist cfg st inv t)
        (totalInv inv - totalInv (tickPrevInv cfg st inv t)) st.falsePositivesFiltered).1 = true
    · rw [if_pos hv, if_pos ⟨hc.1, hc.2, hv⟩]
    · rw [if_neg hv, if_neg (by tauto), List.append_nil]
  · rw [if_neg hc, if_neg (by tauto), List.append_nil]

theorem detect_state_pend (cfg : SalesConfig T) (st : SalesState T) (t : T) :
    (detectAttributedSales cfg st t).2.pendingDecreases =
      cleanupPendingDecreases cfg t
        ((allProducts ((st.snapshotHistory.getLastD (t, [])).2)
            ((st.snapshotHistory.dropLast.getLastD (t, [])).2)).foldl
          (salesStep cfg t st.snapshotHistory
            ((st.snapshotHistory.dropLast.getLastD (t, [])).2)
            ((st.snapshotHistory.getLastD (t, [])).2))
          ([], st.pendingDecreases, st.lastSaleTime)).2.1 := by
  simp only [detectAttributedSales]
  split
  · split <;> rfl
  · rfl

theorem detect_state_ls (cfg : SalesConfig T) (st : SalesState T) (t : T) :
    (detectAttributedSales cfg st t).2.lastSaleTime =
      ((allProducts ((st.snapshotHistory.getLastD (t, [])).2)
          ((st.snapshotHistory.dropLast.getLastD (t, [])).2)).foldl
        (salesStep cfg t st.snapshotHistory
          ((st.snapshotHistory.dropLast.getLastD (t, [])).2)
          ((st.snapshotHistory.getLastD (t, [])).2))
        ([], st.pendingDecreases, st.lastSaleTime)).2.2 := by
  simp only [detectAttributedSales]
  split
  · split <;> rfl
  · rfl

theorem processSnapshot_pend (cfg : SalesConfig T) (st : SalesState T) (inv : Inv) (t : T)
    (h2 : 2 ≤ (tickHist cfg st inv t).length) (q : String) :
    (processSnapshot cfg st inv t).2.pendingDecreases q =
      (if q ∈ allProducts inv (tickPrevInv cfg st inv t) then
        (if (stepEmit? cfg t (tickHist cfg st inv t) (tickPrevInv cfg st inv t) inv q
            (st.pendingDecreases q) (st.lastSaleTime q)).isSome then []
         else stepPend1 cfg t (tickPrevInv cfg st inv t) inv q (st.pendingDecreases q))
       else st.pendingDecreases q).filter
        (fun e => decide (t - e.1 < cfg.snapshotInterval * ((cfg.confirmIntervals : T) + 2))) := by
  have hne : ¬ (tickHist cfg st inv t).length < 2 := by omega
  have hnod : (allProducts inv (tickPrevInv cfg st inv t)).Nodup := by
    rw [allProducts]; exact List.nodup_dedup _
  have h1 : (processSnapshot cfg st inv t).2.pendingDecreases q =
      (detectAttributedSales cfg { st with snapshotHistory := tickHist cfg st inv t }
        t).2.pendingDecreases q := by
    simp only [processSnapshot]
    rw [show pushCap (cfg.confirmIntervals + 1) st.snapshotHistory (t, inv) =
      tickHist cfg st inv t from rfl]
    rw [if_neg hne]
  rw [h1, detect_state_pend]
  rw [show ({ st with snapshotHistory := tickHist cfg st inv t } :
    SalesState T).snapshotHistory = tickHist cfg st inv t from rfl]
  rw [show ({ st with snapshotHistory := tickHist cfg st inv t } :
    SalesState T).pendingDecreases = st.pendingDecreases from rfl]
  rw [show ({ st with snapshotHistory := tickHist cfg st inv t } :
    SalesState T).lastSaleTime = st.lastSaleTime from rfl]
  rw [curInv_eq]
  rw [show ((tickHist cfg st inv t).dropLast.getLastD (t, [])).2 =
    tickPrevInv cfg st inv t from rfl]
  simp only [cleanupPendingDecreases]
  rw [salesFold_pend _ hnod]

theorem processSnapshot_ls (cfg : SalesConfig T) (st : SalesState T) (inv : Inv) (t : T)
    (h2 : 2 ≤ (tickHist cfg st inv t).length) (q : String) :
    (processSnapshot cfg st inv t).2.lastSaleTime q =
      if q ∈ allProducts inv (tickPrevInv cfg st inv t) then
        (if (stepEmit? cfg t (tickHist cfg st inv t) (tickPrevInv cfg st inv t) inv q
            (st.pendingDecreases q) (st.lastSaleTime q)).isSome then some t
         else st.lastSaleTime q)
      else st.lastSaleTime q := by
  have hne : ¬ (tickHist cfg st inv t).length < 2 := by omega
  have hnod : (allProducts inv (tickPrevInv cfg st inv t)).Nodup := by
    rw [allProducts]; exact List.nodup_dedup _
  have h1 : (processSnapshot cfg st inv t).2.lastSaleTime q =
      (detectAttributedSales cfg { st with snapshotHistory := tickHist cfg st inv t }
        t).2.lastSaleTime q := by
    simp only [processSnapshot]
    rw [show pushCap (cfg.confirmIntervals + 1) st.snapshotHistory (t, inv) =
      tickHist cfg st inv t from rfl]
    rw [if_neg hne]
  rw [h1, detect_state_ls]
  rw [show ({ st with snapshotHistory := tickHist cfg st inv t } :
    SalesState T).snapshotHistory = tickHist cfg st inv t from rfl]
  rw [show ({ st with snapshotHistory := tickHist cfg st inv t } :
    SalesState T).pendingDecreases = st.pendingDecreases from rfl]
  rw [show ({ st with snapshotHistory := tickHist cfg st inv t } :
    SalesState T).lastSaleTime = st.lastSaleTime from rfl]
  rw [curInv_eq]
  rw [show ((tickHist cfg st inv t).dropLast.getLastD (t, [])).2 =
    tickPrevInv cfg st inv t from rfl]
  rw [salesFold_ls _ hnod]

theorem processSnapshot_hist (cfg : SalesConfig T) (st : SalesState T) (inv : Inv) (t : T) :
    (processSnapshot cfg st inv t).2.snapshotHistory = tickHist cfg st inv t := by
  simp only [processSnapshot]
  rw [show pushCap (cfg.confirmIntervals + 1) st.snapshotHistory (t, inv) =
    tickHist cfg st inv t from rfl]
  split
  · rfl
  · simp only [detectAttributedSales]
    split
    · split <;> rfl
    · rfl

theorem processSnapshot_noDetect (cfg : SalesConfig T) (st : SalesState T) (inv : Inv)
    (t : T) (h2 : (tickHist cfg st inv t).length < 2) :
    processSnapshot cfg st inv t =
      ([], { st with snapshotHistory := tickHist cfg st inv t }) := by
  simp only [processSnapshot]
  rw [show pushCap (cfg.confirmIntervals + 1) st.snapshotHistory (t, inv) =
    tickHist cfg st inv t from rfl]
  rw [if_pos h2]

/-! ## Characterization of the alert-engine loops -/

theorem lowStockStep_fst (cfg : AlertConfig T) (t : T) (inv : Inv)
    (acc : List (Alert T) × (String → List (T × ℤ)) × (String → String → Option T) × ℕ)
    (en : String × ℤ) :
    (lowStockStep cfg t inv acc en).1 =
      acc.1 ++ (lowStockEmit? cfg t inv en (acc.2.1 en.1) (acc.2.2.1 "low_stock" en.1)).toList := by
  rcases h : lowStockEmit? cfg t inv en (acc.2.1 en.1) (acc.2.2.1 "low_stock" en.1) with _ | a <;>
    simp [lowStockStep, h]

theorem lowStockStep_pend_ne (cfg : AlertConfig T) (t : T) (inv : Inv)
    (acc : List (Alert T) × (String → List (T × ℤ)) × (String → String → Option T) × ℕ)
    (en : String × ℤ) {q : String} (h : q ≠ en.1) :
    (lowStockStep cfg t inv acc en).2.1 q = acc.2.1 q := by
  rcases he : lowStockEmit? cfg t inv en (acc.2.1 en.1) (acc.2.2.1 "low_stock" en.1) with _ | a <;>
    simp [lowStockStep, he, updFn_ne _ _ _ h]

theorem lowStockStep_pend_self (cfg : AlertConfig T) (t : T) (inv : Inv)
    (acc : List (Alert T) × (String → List (T × ℤ)) × (String → String → Option T) × ℕ)
    (en : String × ℤ) :
    (lowStockStep cfg t inv acc en).2.1 en.1 =
      if (lowStockEmit? cfg t inv en (acc.2.1 en.1) (acc.2.2.1 "low_stock" en.1)).isSome then []
      else lowStockPend1 cfg t inv en (acc.2.1 en.1) := by
  rcases he : lowStockEmit? cfg t inv en (acc.2.1 en.1) (acc.2.2.1 "low_stock" en.1) with _ | a <;>
    simp [lowStockStep, he, updFn_self]

theorem lowStockStep_lat_ne (cfg : AlertConfig T) (t : T) (inv : Inv)
    (acc : List (Alert T) × (String → List (T × ℤ)) × (String → String → Option T) × ℕ)
    (en : String × ℤ) {a b : String} (h : ¬(a = "low_stock" ∧ b = en.1)) :
    (lowStockStep cfg t inv acc en).2.2.1 a b = acc.2.2.1 a b := by
  rcases he : lowStockEmit? cfg t inv en (acc.2.1 en.1) (acc.2.2.1 "low_stock" en.1) with _ | x <;>
    simp only [lowStockStep, he] <;> simp [updFn2_ne _ _ _ _ h]

theorem lowStockStep_lat_self (cfg : AlertConfig T) (t : T) (inv : Inv)
    (acc : List (Alert T) × (String → List (T × ℤ)) × (String → String → Option T) × ℕ)
    (en : String × ℤ) :
    (lowStockStep cfg t inv acc en).2.2.1 "low_stock" en.1 =
      if (lowStockEmit? cfg t inv en (acc.2.1 en.1) (acc.2.2.1 "low_stock" en.1)).isSome
      then some t else acc.2.2.1 "low_stock" en.1 := by
  rcases he : lowStockEmit? cfg t inv en (acc.2.1 en.1) (acc.2.2.1 "low_stock" en.1) with _ | x <;>
    simp [lowStockStep, he, updFn2_same]

theorem lowStockFold_pend_notMem (cfg : AlertConfig T) (t : T) (inv : Inv)
    (entries : List (String × ℤ)) (acc) {q : String}
    (h : q ∉ entries.map Prod.fst) :
    ((entries.foldl (lowStockStep cfg t inv) acc)).2.1 q = acc.2.1 q := by
  induction entries generalizing acc with
  | nil => rfl
  | cons en rest ih =>
    have hqe : q ≠ en.1 := by
      intro hq; exact h (by simp [hq])
    rw [List.foldl_cons, ih _ (fun hq => h (by simp at hq ⊢; exact Or.inr hq)),
      lowStockStep_pend_ne _ _ _ _ _ hqe]

theorem lowStockFold_lat_ne (cfg : AlertConfig T) (t : T) (inv : Inv)
    (entries : List (String × ℤ)) (acc) {a b : String}
    (h : ¬(a = "low_stock" ∧ b ∈ entries.map Prod.fst)) :
    ((entries.foldl (lowStockStep cfg t inv) acc)).2.2.1 a b = acc.2.2.1 a b := by
  induction entries generalizing acc with
  | nil => rfl
  | cons en rest ih =>
    have h1 : ¬(a = "low_stock" ∧ b = en.1) := by
      rintro ⟨ha, hb⟩; exact h ⟨ha, by simp [hb]⟩
    have h2 : ¬(a = "low_stock" ∧ b ∈ rest.map Prod.fst) := by
      rintro ⟨ha, hb⟩; exact h ⟨ha, by simp at hb ⊢; exact Or.inr hb⟩
    rw [List.foldl_cons, ih _ h2, lowStockStep_lat_ne _ _ _ _ _ h1]

theorem lowStockFold_fst (cfg : AlertConfig T) (t : T) (inv : Inv)
    (entries : List (String × ℤ)) (hnd : (entries.map Prod.fst).Nodup)
    (al : List (Alert T)) (pend : String → List (T × ℤ))
    (lat : String → String → Option T) (supp : ℕ) :
    ((entries.foldl (lowStockStep cfg t inv) (al, pend, lat, supp))).1 =
      al ++ entries.filterMap
        (fun en => lowStockEmit? cfg t inv en (pend en.1) (lat "low_stock" en.1)) := by
  induction entries generalizing al pend lat supp with
  | nil => simp
  | cons en rest ih =>
    obtain ⟨hp, hrest⟩ := List.nodup_cons.mp (by rw [List.map_cons] at hnd; exact hnd)
    rw [List.foldl_cons]
    have hs : lowStockStep cfg t inv (al, pend, lat, supp) en =
        ((lowStockStep cfg t inv (al, pend, lat, supp) en).1,
         (lowStockStep cfg t inv (al, pend, lat, supp) en).2.1,
         (lowStockStep cfg t inv (al, pend, lat, supp) en).2.2.1,
         (lowStockStep cfg t inv (al, pend, lat, supp) en).2.2.2) := rfl
    rw [hs, ih hrest]
    have hcong : List.filterMap (fun en2 => lowStockEmit? cfg t inv en2
          ((lowStockStep cfg t inv (al, pend, lat, supp) en).2.1 en2.1)
          ((lowStockStep cfg t inv (al, pend, lat, supp) en).2.2.1 "low_stock" en2.1)) rest =
        List.filterMap (fun en2 => lowStockEmit? cfg t inv en2 (pend en2.1)
          (lat "low_stock" en2.1)) rest :=
      List.filterMap_congr (fun en2 hq => by
        have hqp : en2.1 ≠ en.1 := by
          intro hq2; exact hp (hq2 ▸ List.mem_map_of_mem Prod.fst hq)
        rw [lowStockStep_pend_ne _ _ _ _ _ hqp,
          lowStockStep_lat_ne _ _ _ _ _ (by rintro ⟨_, hb⟩; exact hqp hb)])
    rw [hcong, lowStockStep_fst]
    rcases he : lowStockEmit? cfg t inv en (pend en.1) (lat "low_stock" en.1) with _ | a <;>
      simp [List.filterMap_cons, he]

theorem lowStockFold_pend_mem (cfg : AlertConfig T) (t : T) (inv : Inv)
    (entries : List (String × ℤ)) (hnd : (entries.map Prod.fst).Nodup)
    (al : List (Alert T)) (pend : String → List (T × ℤ))
    (lat : String → String → Option T) (supp : ℕ)
    {en : String × ℤ} (hen : en ∈ entries) :
    ((entries.foldl (lowStockStep cfg t inv) (al, pend, lat, supp))).2.1 en.1 =
      if (lowStockEmit? cfg t inv en (pend en.1) (lat "low_stock" en.1)).isSome then []
      else lowStockPend1 cfg t inv en (pend en.1) := by
  induction entries generalizing al pend lat supp with
  | nil => simp at hen
  | cons en0 rest ih =>
    obtain ⟨hp, hrest⟩ := List.nodup_cons.mp (by rw [List.map_cons] at hnd; exact hnd)
    rw [List.foldl_cons]
    have hs : lowStockStep cfg t inv (al, pend, lat, supp) en0 =
        ((lowStockStep cfg t inv (al, pend, lat, supp) en0).1,
         (lowStockStep cfg t inv (al, pend, lat, supp) en0).2.1,
         (lowStockStep cfg t inv (al, pend, lat, supp) en0).2.2.1,
         (lowStockStep cfg t inv (al, pend, lat, supp) en0).2.2.2) := rfl
    rcases List.mem_cons.mp hen with hh | hh
    · subst hh
      have hnotr : en.1 ∉ rest.map Prod.fst := hp
      rw [hs, lowStockFold_pend_notMem _ _ _ _ _ hnotr, lowStockStep_pend_self]
    · have hne : en.1 ≠ en0.1 := by
        intro hq; exact hp (hq ▸ List.mem_map_of_mem Prod.fst hh)
      rw [hs, ih hrest _ _ _ _ hh]
      rw [lowStockStep_pend_ne _ _ _ _ _ hne,
        lowStockStep_lat_ne _ _ _ _ _ (by rintro ⟨_, hb⟩; exact hne hb)]

theorem lowStockFold_lat_mem (cfg : AlertConfig T) (t : T) (inv : Inv)
    (entries : List (String × ℤ)) (hnd : (entries.map Prod.fst).Nodup)
    (al : List (Alert T)) (pend : String → List (T × ℤ))
    (lat : String → String → Option T) (supp : ℕ)
    {en : String × ℤ} (hen : en ∈ entries) :
    ((entries.foldl (lowStockStep cfg t inv) (al, pend, lat, supp))).2.2.1 "low_stock" en.1 =
      if (lowStockEmit? cfg t inv en (pend en.1) (lat "low_stock" en.1)).isSome
      then some t else lat "low_stock" en.1 := by
  induction entries generalizing al pend lat supp with
  | nil => simp at hen
  | cons en0 rest ih =>
    obtain ⟨hp, hrest⟩ := List.nodup_cons.mp (by rw [List.map_cons] at hnd; exact hnd)
    rw [List.foldl_cons]
    have hs : lowStockStep cfg t inv (al, pend, lat, supp) en0 =
        ((lowStockStep cfg t inv (al, pend, lat, supp) en0).1,
         (lowStockStep cfg t inv (al, pend, lat, supp) en0).2.1,
         (lowStockStep cfg t inv (al, pend, lat, supp) en0).2.2.1,
         (lowStockStep cfg t inv (al, pend, lat, supp) en0).2.2.2) := rfl
    rcases List.mem_cons.mp hen with hh | hh
    · subst hh
      have hnot : ¬("low_stock" = "low_stock" ∧ en.1 ∈ rest.map Prod.fst) := by
        rintro ⟨_, hb⟩; exact hp hb
      rw [hs, lowStockFold_lat_ne _ _ _ _ _ hnot, lowStockStep_lat_self]
    · have hne : en.1 ≠ en0.1 := by
        intro hq; exact hp (hq ▸ List.mem_map_of_mem Prod.fst hh)
      rw [hs, ih hrest _ _ _ _ hh]
      rw [lowStockStep_pend_ne _ _ _ _ _ hne,
        lowStockStep_lat_ne _ _ _ _ _ (by rintro ⟨_, hb⟩; exact hne hb)]

theorem expirationStep_fst (cfg : AlertConfig T) (t : T)
    (acc : List (Alert T) × (String → List (T × T)) × (String → String → Option T) × ℕ)
    (en : String × Freshness T) :
    (expirationStep cfg t acc en).1 =
      acc.1 ++ (expirationEmit? cfg t en (acc.2.1 en.1) (acc.2.2.1 "expiration" en.1)).toList := by
  rcases h : expirationEmit? cfg t en (acc.2.1 en.1) (acc.2.2.1 "expiration" en.1) with _ | a <;>
    simp [expirationStep, h]

theorem expirationStep_pend_ne (cfg : AlertConfig T) (t : T)
    (acc : List (Alert T) × (String → List (T × T)) × (String → String → Option T) × ℕ)
    (en : String × Freshness T) {q : String} (h : q ≠ en.1) :
    (expirationStep cfg t acc en).2.1 q = acc.2.1 q := by
  rcases he : expirationEmit? cfg t en (acc.2.1 en.1) (acc.2.2.1 "expiration" en.1) with _ | a <;>
    simp [expirationStep, he, updFn_ne _ _ _ h]

theorem expirationStep_pend_self (cfg : AlertConfig T) (t : T)
    (acc : List (Alert T) × (String → List (T × T)) × (String → String → Option T) × ℕ)
    (en : String × Freshness T) :
    (expirationStep cfg t acc en).2.1 en.1 =
      if (expirationEmit? cfg t en (acc.2.1 en.1) (acc.2.2.1 "expiration" en.1)).isSome then []
      else expirationPend1 cfg t en (acc.2.1 en.1) := by
  rcases he : expirationEmit? cfg t en (acc.2.1 en.1) (acc.2.2.1 "expiration" en.1) with _ | a <;>
    simp [expirationStep, he, updFn_self]

theorem expirationStep_lat_ne (cfg : AlertConfig T) (t : T)
    (acc : List (Alert T) × (String → List (T × T)) × (String → String → Option T) × ℕ)
    (en : String × Freshness T) {a b : String} (h : ¬(a = "expiration" ∧ b = en.1)) :
    (expirationStep cfg t acc en).2.2.1 a b = acc.2.2.1 a b := by
  rcases he : expirationEmit? cfg t en (acc.2.1 en.1) (acc.2.2.1 "expiration" en.1) with _ | x <;>
    simp only [expirationStep, he] <;> simp [updFn2_ne _ _ _ _ h]

theorem expirationStep_lat_self (cfg : AlertConfig T) (t : T)
    (acc : List (Alert T) × (String → List (T × T)) × (String → String → Option T) × ℕ)
    (en : String × Freshness T) :
    (expirationStep cfg t acc en).2.2.1 "expiration" en.1 =
      if (expirationEmit? cfg t en (acc.2.1 en.1) (acc.2.2.1 "expiration" en.1)).isSome
      then some t else acc.2.2.1 "expiration" en.1 := by
  rcases he : expirationEmit? cfg t en (acc.2.1 en.1) (acc.2.2.1 "expiration" en.1) with _ | x <;>
    simp [expirationStep, he, updFn2_same]

theorem expirationFold_pend_notMem (cfg : AlertConfig T) (t : T)
    (entries : List (String × Freshness T)) (acc) {q : String}
    (h : q ∉ entries.map Prod.fst) :
    ((entries.foldl (expirationStep cfg t) acc)).2.1 q = acc.2.1 q := by
  induction entries generalizing acc with
  | nil => rfl
  | cons en rest ih =>
    have hqe : q ≠ en.1 := by
      intro hq; exact h (by simp [hq])
    rw [List.foldl_cons, ih _ (fun hq => h (by simp at hq ⊢; exact Or.inr hq)),
      expirationStep_pend_ne _ _ _ _ hqe]

theorem expirationFold_lat_ne (cfg : AlertConfig T) (t : T)
    (entries : List (String × Freshness T)) (acc) {a b : String}
    (h : ¬(a = "expiration" ∧ b ∈ entries.map Prod.fst)) :
    ((entries.foldl (expirationStep cfg t) acc)).2.2.1 a b = acc.2.2.1 a b := by
  induction entries generalizing acc with
  | nil => rfl
  | cons en rest ih =>
    have h1 : ¬(a = "expiration" ∧ b = en.1) := by
      rintro ⟨ha, hb⟩; exact h ⟨ha, by simp [hb]⟩
    have h2 : ¬(a = "expiration" ∧ b ∈ rest.map Prod.fst) := by
      rintro ⟨ha, hb⟩; exact h ⟨ha, by simp at hb ⊢; exact Or.inr hb⟩
    rw [List.foldl_cons, ih _ h2, expirationStep_lat_ne _ _ _ _ h1]

theorem expirationFold_fst (cfg : AlertConfig T) (t : T)
    (entries : List (String × Freshness T)) (hnd : (entries.map Prod.fst).Nodup)
    (al : List (Alert T)) (pend : String → List (T × T))
    (lat : String → String → Option T) (supp : ℕ) :
    ((entries.foldl (expirationStep cfg t) (al, pend, lat, supp))).1 =
      al ++ entries.filterMap
        (fun en => expirationEmit? cfg t en (pend en.1) (lat "expiration" en.1)) := by
  induction entries generalizing al pend lat supp with
  | nil => simp
  | cons en rest ih =>
    obtain ⟨hp, hrest⟩ := List.nodup_cons.mp (by rw [List.map_cons] at hnd; exact hnd)
    rw [List.foldl_cons]
    have hs : expirationStep cfg t (al, pend, lat, supp) en =
        ((expirationStep cfg t (al, pend, lat, supp) en).1,
         (expirationStep cfg t (al, pend, lat, supp) en).2.1,
         (expirationStep cfg t (al, pend, lat, supp) en).2.2.1,
         (expirationStep cfg t (al, pend, lat, supp) en).2.2.2) := rfl
    rw [hs, ih hrest]
    have hcong : List.filterMap (fun en2 => expirationEmit? cfg t en2
          ((expirationStep cfg t (al, pend, lat, supp) en).2.1 en2.1)
          ((expirationStep cfg t (al, pend, lat, supp) en).2.2.1 "expiration" en2.1)) rest =
        List.filterMap (fun en2 => expirationEmit? cfg t en2 (pend en2.1)
          (lat "expiration" en2.1)) rest :=
      List.filterMap_congr (fun en2 hq => by
        have hqp : en2.1 ≠ en.1 := by
          intro hq2; exact hp (hq2 ▸ List.mem_map_of_mem Prod.fst hq)
        rw [expirationStep_pend_ne _ _ _ _ hqp,
          expirationStep_lat_ne _ _ _ _ (by rintro ⟨_, hb⟩; exact hqp hb)])
    rw [hcong, expirationStep_fst]
    rcases he : expirationEmit? cfg t en (pend en.1) (lat "expiration" en.1) with _ | a <;>
      simp [List.filterMap_cons, he]

theorem expirationFold_pend_mem (cfg : AlertConfig T) (t : T)
    (entries : List (String × Freshness T)) (hnd : (entries.map Prod.fst).Nodup)
    (al : List (Alert T)) (pend : String → List (T × T))
    (lat : String → String → Option T) (supp : ℕ)
    {en : String × Freshness T} (hen : en ∈ entries) :
    ((entries.foldl (expirationStep cfg t) (al, pend, lat, supp))).2.1 en.1 =
      if (expirationEmit? cfg t en (pend en.1) (lat "expiration" en.1)).isSome then []
      else expirationPend1 cfg t en (pend en.1) := by
  induction entries generalizing al pend lat supp with
  | nil => simp at hen
  | cons en0 rest ih =>
    obtain ⟨hp, hrest⟩ := List.nodup_cons.mp (by rw [List.map_cons] at hnd; exact hnd)
    rw [List.foldl_cons]
    have hs : expirationStep cfg t (al, pend, lat, supp) en0 =
        ((expirationStep cfg t (al, pend, lat, supp) en0).1,
         (expirationStep cfg t (al, pend, lat, supp) en0).2.1,
         (expirationStep cfg t (al, pend, lat, supp) en0).2.2.1,
         (expirationStep cfg t (al, pend, lat, supp) en0).2.2.2) := rfl
    rcases List.mem_cons.mp hen with hh | hh
    · subst hh
      have hnotr : en.1 ∉ rest.map Prod.fst := hp
      rw [hs, expirationFold_pend_notMem _ _ _ _ hnotr, expirationStep_pend_self]
    · have hne : en.1 ≠ en0.1 := by
        intro hq; exact hp (hq ▸ List.mem_map_of_mem Prod.fst hh)
      rw [hs, ih hrest _ _ _ _ hh]
      rw [expirationStep_pend_ne _ _ _ _ hne,
        expirationStep_lat_ne _ _ _ _ (by rintro ⟨_, hb⟩; exact hne hb)]

theorem expirationFold_lat_mem (cfg : AlertConfig T) (t : T)
    (entries : List (String × Freshness T)) (hnd : (entries.map Prod.fst).Nodup)
    (al : List (Alert T)) (pend : String → List (T × T))
    (lat : String → String → Option T) (supp : ℕ)
    {en : String × Freshness T} (hen : en ∈ entries) :
    ((entries.foldl (expirationStep cfg t) (al, pend, lat, supp))).2.2.1 "expiration" en.1 =
      if (expirationEmit? cfg t en (pend en.1) (lat "expiration" en.1)).isSome
      then some t else lat "expiration" en.1 := by
  induction entries generalizing al pend lat supp with
  | nil => simp at hen
  | cons en0 rest ih =>
    obtain ⟨hp, hrest⟩ := List.nodup_cons.mp (by rw [List.map_cons] at hnd; exact hnd)
    rw [List.foldl_cons]
    have hs : expirationStep cfg t (al, pend, lat, supp) en0 =
        ((expirationStep cfg t (al, pend, lat, supp) en0).1,
         (expirationStep cfg t (al, pend, lat, supp) en0).2.1,
         (expirationStep cfg t (al, pend, lat, supp) en0).2.2.1,
         (expirationStep cfg t (al, pend, lat, supp) en0).2.2.2) := rfl
    rcases List.mem_cons.mp hen with hh | hh
    · subst hh
      have hnot : ¬("expiration" = "expiration" ∧ en.1 ∈ rest.map Prod.fst) := by
        rintro ⟨_, hb⟩; exact hp hb
      rw [hs, expirationFold_lat_ne _ _ _ _ hnot, expirationStep_lat_self]
    · have hne : en.1 ≠ en0.1 := by
        intro hq; exact hp (hq ▸ List.mem_map_of_mem Prod.fst hh)
      rw [hs, ih hrest _ _ _ _ hh]
      rw [expirationStep_pend_ne _ _ _ _ hne,
        expirationStep_lat_ne _ _ _ _ (by rintro ⟨_, hb⟩; exact hne hb)]

/-! ## Shape of emitted events and alerts -/

theorem stepEmit?_shape {cfg : SalesConfig T} {t : T} {hist : List (T × Inv)}
    {prevInv curInv : Inv} {p : String} {pendp : List (T × ℤ)} {lsp : Option T}
    {e : SaleEvent T} (h : stepEmit? cfg t hist prevInv curInv p pendp lsp = some e) :
    e.productName = p ∧ e.timestampUtc = t ∧ e.validated = true ∧
    salesCheckCooldown cfg lsp t = true := by
  simp only [stepEmit?] at h
  split at h
  · rename_i hg
    have he := Option.some.inj h
    subst he
    exact ⟨rfl, rfl, rfl, hg.2.2⟩
  · simp at h

theorem salesCheckCooldown_true {cfg : SalesConfig T} {lsp : Option T} {t : T}
    (h : salesCheckCooldown cfg lsp t = true) :
    lsp = none ∨ ∃ t0, lsp = some t0 ∧ cfg.cooldownSeconds ≤ t - t0 := by
  rcases lsp with _ | t0
  · exact Or.inl rfl
  · right
    refine ⟨t0, rfl, ?_⟩
    simp only [salesCheckCooldown, Bool.not_eq_true'] at h
    simpa using of_decide_eq_false h

theorem alertCheckCooldown_fst_true {cfg : AlertConfig T} {lt : Option T} {t : T}
    {supp : ℕ} (h : (alertCheckCooldown cfg lt t supp).1 = true) :
    lt = none ∨ ∃ t0, lt = some t0 ∧ cfg.alertCooldownSeconds ≤ t - t0 := by
  rcases lt with _ | t0
  · exact Or.inl rfl
  · right
    refine ⟨t0, rfl, ?_⟩
    simp only [alertCheckCooldown] at h
    split at h
    · simp at h
    · rename_i hlt; exact not_lt.mp hlt

theorem lowStockEmit?_shape {cfg : AlertConfig T} {t : T} {inv : Inv}
    {en : String × ℤ} {pd : List (T × ℤ)} {lt : Option T} {a : Alert T}
    (h : lowStockEmit? cfg t inv en pd lt = some a) :
    a.alertType = "low_stock" ∧ a.productName = en.1 ∧ a.timestampUtc = t ∧
    a.meta = .lowStock (lookupD inv en.1 0) en.2 ∧
    lookupD inv en.1 0 ≤ en.2 ∧
    a.severity = (if lookupD inv en.1 0 = 0 then "critical" else "warning") ∧
    (alertCheckCooldown cfg lt t 0).1 = true := by
  simp only [lowStockEmit?] at h
  split at h
  · rename_i hle
    split at h
    · split at h
      · rename_i hcd
        have he := Option.some.inj h
        subst he
        exact ⟨rfl, rfl, rfl, rfl, hle, rfl, hcd⟩
      · simp at h
    · simp at h
  · simp at h

theorem expirationEmit?_shape {cfg : AlertConfig T} {t : T}
    {en : String × Freshness T} {pd : List (T × T)} {lt : Option T} {a : Alert T}
    (h : expirationEmit? cfg t en pd lt = some a) :
    a.alertType = "expiration" ∧ a.productName = en.1 ∧ a.timestampUtc = t ∧
    a.severity = "warning" ∧ en.2.isExpired = true ∧
    (alertCheckCooldown cfg lt t 0).1 = true := by
  simp only [expirationEmit?] at h
  split at h
  · rename_i hex
    split at h
    · split at h
      · rename_i hcd
        have he := Option.some.inj h
        subst he
        exact ⟨rfl, rfl, rfl, rfl, hex, hcd⟩
      · simp at h
    · simp at h
  · simp at h

theorem lowStockFold_out_shape (cfg : AlertConfig T) (t : T) (inv : Inv)
    (entries : List (String × ℤ)) (acc) {a : Alert T}
    (h : a ∈ ((entries.foldl (lowStockStep cfg t inv) acc)).1) :
    a ∈ acc.1 ∨ ∃ en ∈ entries, ∃ pd lt, lowStockEmit? cfg t inv en pd lt = some a := by
  induction entries generalizing acc with
  | nil => exact Or.inl h
  | cons en rest ih =>
    rw [List.foldl_cons] at h
    rcases ih _ h with h1 | ⟨en2, hen2, pd, lt, he⟩
    · rw [lowStockStep_fst] at h1
      rcases List.mem_append.mp h1 with h2 | h2
      · exact Or.inl h2
      · rcases ho : lowStockEmit? cfg t inv en (acc.2.1 en.1) (acc.2.2.1 "low_stock" en.1)
          with _ | a2
        · rw [ho] at h2
          simp at h2
        · rw [ho] at h2
          simp only [Option.toList_some, List.mem_singleton] at h2
          subst h2
          exact Or.inr ⟨en, List.mem_cons_self _ _, _, _, ho⟩
    · exact Or.inr ⟨en2, List.mem_cons_of_mem _ hen2, pd, lt, he⟩

theorem expirationFold_out_shape (cfg : AlertConfig T) (t : T)
    (entries : List (String × Freshness T)) (acc) {a : Alert T}
    (h : a ∈ ((entries.foldl (expirationStep cfg t) acc)).1) :
    a ∈ acc.1 ∨ ∃ en ∈ entries, ∃ pd lt, expirationEmit? cfg t en pd lt = some a := by
  induction entries generalizing acc with
  | nil => exact Or.inl h
  | cons en rest ih =>
    rw [List.foldl_cons] at h
    rcases ih _ h with h1 | ⟨en2, hen2, pd, lt, he⟩
    · rw [expirationStep_fst] at h1
      rcases List.mem_append.mp h1 with h2 | h2
      · exact Or.inl h2
      · rcases ho : expirationEmit? cfg t en (acc.2.1 en.1) (acc.2.2.1 "expiration" en.1)
          with _ | a2
        · rw [ho] at h2
          simp at h2
        · rw [ho] at h2
          simp only [Option.toList_some, List.mem_singleton] at h2
          subst h2
          exact Or.inr ⟨en, List.mem_cons_self _ _, _, _, ho⟩
    · exact Or.inr ⟨en2, List.mem_cons_of_mem _ hen2, pd, lt, he⟩

theorem evaluate_out_shape (cfg : AlertConfig T) (st : AlertState T) (inv : Inv)
    (fr : List (String × Freshness T)) (t : T) {a : Alert T}
    (h : a ∈ (evaluate cfg st inv fr t).1) :
    (∃ en ∈ cfg.lowStockThresholds, ∃ pd lt, lowStockEmit? cfg t inv en pd lt = some a) ∨
    (∃ en ∈ fr, ∃ pd lt, expirationEmit? cfg t en pd lt = some a) := by
  have hsplit : (evaluate cfg st inv fr t).1 =
      (cfg.lowStockThresholds.foldl (lowStockStep cfg t inv)
        ([], st.pendingLowStock, st.lastAlertTime, st.alertsSuppressedByCooldown)).1 ++
      (fr.foldl (expirationStep cfg t)
        ([], st.pendingExpiration,
         (cfg.lowStockThresholds.foldl (lowStockStep cfg t inv)
           ([], st.pendingLowStock, st.lastAlertTime, st.alertsSuppressedByCooldown)).2.2.1,
         (cfg.lowStockThresholds.foldl (lowStockStep cfg t inv)
           ([], st.pendingLowStock, st.lastAlertTime, st.alertsSuppressedByCooldown)).2.2.2)).1 := rfl
  rw [hsplit] at h
  rcases List.mem_append.mp h with h1 | h1
  · rcases lowStockFold_out_shape cfg t inv _ _ h1 with h2 | h2
    · simp at h2
    · exact Or.inl h2
  · rcases expirationFold_out_shape cfg t _ _ h1 with h2 | h2
    · simp at h2
    · exact Or.inr h2

theorem validateTotalDecrease_fst (cfg : SalesConfig T) (hist : List (T × Inv))
    (td : ℤ) (fp : ℕ) :
    ((validateTotalDecrease cfg hist td fp).1 = true) ↔
      (cfg.minDeltaThreshold * 2 ≤ |td| ∧ cfg.confirmIntervals + 1 ≤ hist.length ∧
       strictlyDecreasing ((takeLast (cfg.confirmIntervals + 1) hist).map
         (fun s => totalInv s.2)) = true) := by
  rw [validateTotalDecrease]
  by_cases h1 : |td| < cfg.minDeltaThreshold * 2
  · rw [if_pos h1]
    exact iff_of_false (by simp) (by rintro ⟨hge, _⟩; omega)
  · rw [if_neg h1]
    by_cases h2 : hist.length < cfg.confirmIntervals + 1
    · rw [if_pos h2]
      exact iff_of_false (by simp) (by rintro ⟨_, hge, _⟩; omega)
    · rw [if_neg h2]
      show (if strictlyDecreasing ((takeLast (cfg.confirmIntervals + 1) hist).map
          (fun s => totalInv s.2)) = true then ((true, fp) : Bool × ℕ)
          else (false, fp + 1)).1 = true ↔ _
      by_cases h3 : strictlyDecreasing ((takeLast (cfg.confirmIntervals + 1) hist).map
          (fun s => totalInv s.2)) = true
      · rw [if_pos h3]
        exact iff_of_true rfl ⟨by omega, by omega, h3⟩
      · rw [if_neg h3]
        exact iff_of_false (by simp) (by rintro ⟨_, _, hs⟩; exact h3 hs)

theorem validateTotalDecrease_voided (cfg : SalesConfig T) (hist : List (T × Inv))
    (td : ℤ) (fp : ℕ) (h1 : cfg.minDeltaThreshold * 2 ≤ |td|)
    (h2 : cfg.confirmIntervals + 1 ≤ hist.length)
    (h3 : strictlyDecreasing ((takeLast (cfg.confirmIntervals + 1) hist).map
      (fun s => totalInv s.2)) = false) :
    validateTotalDecrease cfg hist td fp = (false, fp + 1) := by
  rw [validateTotalDecrease, if_neg (by omega), if_neg (by omega)]
  show (if strictlyDecreasing ((takeLast (cfg.confirmIntervals + 1) hist).map
      (fun s => totalInv s.2)) = true then ((true, fp) : Bool × ℕ)
      else (false, fp + 1)) = _
  rw [if_neg (by simp [h3])]

theorem processSnapshot_fp (cfg : SalesConfig T) (st : SalesState T) (inv : Inv) (t : T)
    (h2 : 2 ≤ (tickHist cfg st inv t).length) :
    (processSnapshot cfg st inv t).2.falsePositivesFiltered =
      if totalInv inv - totalInv (tickPrevInv cfg st inv t) < 0 ∧
          tickAttributed cfg st inv t = [] then
        (validateTotalDecrease cfg (tickHist cfg st inv t)
          (totalInv inv - totalInv (tickPrevInv cfg st inv t)) st.falsePositivesFiltered).2
      else st.falsePositivesFiltered := by
  have hne : ¬ (tickHist cfg st inv t).length < 2 := by omega
  have hnod : (allProducts inv (tickPrevInv cfg st inv t)).Nodup := by
    rw [allProducts]; exact List.nodup_dedup _
  simp only [processSnapshot]
  rw [show pushCap (cfg.confirmIntervals + 1) st.snapshotHistory (t, inv) =
    tickHist cfg st inv t from rfl]
  rw [if_neg hne]
  simp only [detectAttributedSales, curInv_eq]
  rw [show ((tickHist cfg st inv t).dropLast.getLastD (t, [])).2 =
    tickPrevInv cfg st inv t from rfl]
  rw [salesFold_fst _ hnod]
  simp only [List.nil_append]
  rw [show (allProducts inv (tickPrevInv cfg st inv t)).filterMap
      (fun p => stepEmit? cfg t (tickHist cfg st inv t) (tickPrevInv cfg st inv t) inv p
        (st.pendingDecreases p) (st.lastSaleTime p)) = tickAttributed cfg st inv t from rfl]
  by_cases hc : totalInv inv - totalInv (tickPrevInv cfg st inv t) < 0 ∧
      tickAttributed cfg st inv t = []
  · rw [if_pos hc, if_pos hc]
    split <;> rfl
  · rw [if_neg hc, if_neg hc]

theorem lowStockFold_pend_bound (cfg : AlertConfig T) (t : T) (inv : Inv)
    (entries : List (String × ℤ)) (acc) (q : String) :
    ((entries.foldl (lowStockStep cfg t inv) acc)).2.1 q = acc.2.1 q ∨
    (((entries.foldl (lowStockStep cfg t inv) acc)).2.1 q).length ≤
      cfg.lowStockConfirmIntervals + 1 := by
  induction entries generalizing acc with
  | nil => exact Or.inl rfl
  | cons en rest ih =>
    rw [List.foldl_cons]
    rcases ih (lowStockStep cfg t inv acc en) with h | h
    · rw [h]
      by_cases hq : q = en.1
      · subst hq
        rw [lowStockStep_pend_self]
        right
        split
        · simp
        · rw [lowStockPend1]
          split
          · exact length_pushCap_le _ _ _
          · simp
      · rw [lowStockStep_pend_ne _ _ _ _ _ hq]
        exact Or.inl rfl
    · exact Or.inr h

theorem expirationFold_pend_bound (cfg : AlertConfig T) (t : T)
    (entries : List (String × Freshness T)) (acc) (q : String) :
    ((entries.foldl (expirationStep cfg t) acc)).2.1 q = acc.2.1 q ∨
    (((entries.foldl (expirationStep cfg t) acc)).2.1 q).length ≤
      cfg.expirationConfirmIntervals + 1 := by
  induction entries generalizing acc with
  | nil => exact Or.inl rfl
  | cons en rest ih =>
    rw [List.foldl_cons]
    rcases ih (expirationStep cfg t acc en) with h | h
    · rw [h]
      by_cases hq : q = en.1
      · subst hq
        rw [expirationStep_pend_self]
        right
        split
        · simp
        · rw [expirationPend1]
          split
          · exact length_pushCap_le _ _ _
          · simp
      · rw [expirationStep_pend_ne _ _ _ _ hq]
        exact Or.inl rfl
    · exact Or.inr h

/-! ## Claim theorems -/

set_option maxHeartbeats 1000000 in
/-- C1: for a fresh `SalesAttributionEngine` with `confirm_intervals = 2`,
`min_delta_threshold = 1`, `snapshot_interval = 5` (and the default
`cooldown_seconds = 10`), the snapshots `{mango: 5}` at `t0`,
`{mango: 4}` at `t0 + 5` and `{mango: 4}` at `t0 + 10` make
`process_snapshot` return the empty list on the first two calls and
exactly one validated sale event
`{mango, quantity 1, inventory 5 → 4}` on the third. -/
theorem c1_exact_scenario (t0 : T) :
    (processSnapshot ⟨2, 1, 10, 5⟩ SalesState.init [("mango", 5)] t0).1 = [] ∧
    (processSnapshot ⟨2, 1, 10, 5⟩
      (processSnapshot ⟨2, 1, 10, 5⟩ SalesState.init [("mango", 5)] t0).2
      [("mango", 4)] (t0 + 5)).1 = [] ∧
    (processSnapshot ⟨2, 1, 10, 5⟩
      (processSnapshot ⟨2, 1, 10, 5⟩
        (processSnapshot ⟨2, 1, 10, 5⟩ SalesState.init [("mango", 5)] t0).2
        [("mango", 4)] (t0 + 5)).2
      [("mango", 4)] (t0 + 10)).1 =
      [{ productName := "mango", quantityDelta := 1, inventoryBefore := 5,
         inventoryAfter := 4, timestampUtc := t0 + 10, validated := true }] := by
  have t1 : processSnapshot (T := T) ⟨2, 1, 10, 5⟩ SalesState.init [("mango", 5)] t0 =
      ([], ⟨[(t0, [("mango", 5)])], fun _ => none, fun _ => [], 0, fun _ => 0, 0⟩) := rfl
  have s3 : allProducts [("mango", (4:ℤ))] [("mango", 5)] = ["mango"] := by decide
  have s3b : allProducts [("mango", (4:ℤ))] [("mango", 4)] = ["mango"] := by decide
  have e1 : t0 + 5 - (t0 + 5) = (0:T) := by ring
  have h1 : t0 + 5 - (t0 + 5) < (5:T) * (((2:ℕ):T) + 2) := by
    rw [e1]; push_cast; norm_num
  have s1 : stepEmit? (T := T) ⟨2, 1, 10, 5⟩ (t0 + 5)
      [(t0, [("mango", 5)]), (t0 + 5, [("mango", 4)])] [("mango", 5)] [("mango", 4)]
      "mango" [] none = none := by
    simp only [stepEmit?, stepPend1, stepDelta, validateDecrease, salesCheckCooldown,
      lookupD, pushCap, takeLast]
    norm_num
  have s2 : salesStep (T := T) ⟨2, 1, 10, 5⟩ (t0 + 5)
      [(t0, [("mango", 5)]), (t0 + 5, [("mango", 4)])] [("mango", 5)] [("mango", 4)]
      ([], fun _ => [], fun _ => none) "mango" =
      ([], updFn (fun _ => []) "mango" [(t0 + 5, -1)], fun _ => none) := by
    simp only [salesStep, s1]
    simp only [stepPend1, stepDelta, lookupD]
    norm_num
  have t2 : processSnapshot (T := T) ⟨2, 1, 10, 5⟩
      ⟨[(t0, [("mango", 5)])], fun _ => none, fun _ => [], 0, fun _ => 0, 0⟩
      [("mango", 4)] (t0 + 5) =
      ([], ⟨[(t0, [("mango", 5)]), (t0 + 5, [("mango", 4)])], fun _ => none,
        updFn (fun _ => []) "mango" [(t0 + 5, -1)], 0, fun _ => 0, 1⟩) := by
    simp only [processSnapshot, detectAttributedSales, pushCap, takeLast]
    norm_num [s3, s2, validateTotalDecrease, totalInv, updFn]
    funext p
    by_cases hp : p = "mango"
    · subst hp; simp [cleanupPendingDecreases, updFn, h1]
    · simp [cleanupPendingDecreases, updFn, hp]
  have s4 : stepEmit? (T := T) ⟨2, 1, 10, 5⟩ (t0 + 10)
      [(t0, [("mango", 5)]), (t0 + 5, [("mango", 4)]), (t0 + 10, [("mango", 4)])]
      [("mango", 4)] [("mango", 4)] "mango" [(t0 + 5, -1)] none =
      some { productName := "mango", quantityDelta := 1, inventoryBefore := 5,
             inventoryAfter := 4, timestampUtc := t0 + 10, validated := true } := by
    simp only [stepEmit?, stepPend1, stepDelta, validateDecrease, salesCheckCooldown,
      pushCap, takeLast]
    norm_num [lookupD]
  have s5 : salesStep (T := T) ⟨2, 1, 10, 5⟩ (t0 + 10)
      [(t0, [("mango", 5)]), (t0 + 5, [("mango", 4)]), (t0 + 10, [("mango", 4)])]
      [("mango", 4)] [("mango", 4)]
      ([], updFn (fun _ => []) "mango" [(t0 + 5, -1)], fun _ => none) "mango" =
      ([{ productName := "mango", quantityDelta := 1, inventoryBefore := 5,
          inventoryAfter := 4, timestampUtc := t0 + 10, validated := true }],
       updFn (updFn (fun _ => []) "mango" [(t0 + 5, -1)]) "mango" [],
       updFn (fun _ => none) "mango" (some (t0 + 10))) := by
    simp only [salesStep, updFn_self, s4, List.nil_append]
  have t3 : (processSnapshot (T := T) ⟨2, 1, 10, 5⟩
      ⟨[(t0, [("mango", 5)]), (t0 + 5, [("mango", 4)])], fun _ => none,
        updFn (fun _ => []) "mango" [(t0 + 5, -1)], 0, fun _ => 0, 1⟩
      [("mango", 4)] (t0 + 10)).1 =
      [{ productName := "mango", quantityDelta := 1, inventoryBefore := 5,
         inventoryAfter := 4, timestampUtc := t0 + 10, validated := true }] := by
    simp only [processSnapshot, detectAttributedSales, pushCap, takeLast]
    norm_num [s3b, s5, totalInv, lookupD]
  exact ⟨by simp only [t1], by simp only [t1, t2], by simp only [t1, t2, t3]⟩

/-- C2 counterexample: on the multi-step decrease `{m: 10} → {m: 8} → {m: 7}`
(`confirm_intervals = 2`, `min_delta_threshold = 1`), the third tick confirms
with the pending queue `[(5, -2), (10, -1)]` (earliest pending delta `-2`,
count before the first pending tick `10`), yet the emitted event carries
`quantity 1 = |current delta|` and `inventory_before 8 = previous count`,
not `quantity 2` and `inventory_before 10` as the claim requires. -/
theorem c2_counterexample :
    (runSales (T := ℤ) ⟨2, 1, 10, 5⟩ SalesState.init
        [([("m", 10)], 0), ([("m", 8)], 5), ([("m", 7)], 10)]) =
      [[], [],
       [{ productName := "m", quantityDelta := 1, inventoryBefore := 8,
          inventoryAfter := 7, timestampUtc := 10, validated := true }]] ∧
    ((processSnapshot (T := ℤ) ⟨2, 1, 10, 5⟩
        (processSnapshot ⟨2, 1, 10, 5⟩ SalesState.init [("m", 10)] 0).2
        [("m", 8)] 5).2.pendingDecreases "m" = [(5, -2)]) ∧
    ¬((1 : ℤ) = |(-2 : ℤ)| ∧ (8 : ℤ) = 10) := by decide

/-- C2 (amended): every validated sale event a tick emits has
`timestamp = t`, `inventory_after` the entity's current count,
`quantity = |current delta|` if the confirming tick's delta is negative
and otherwise the absolute earliest entry of the entity's pending queue
as updated by this tick, and `inventory_before` the entity's count in
the previous snapshot, plus the quantity when the delta is zero. -/
theorem c2_amended (cfg : SalesConfig T) (st : SalesState T) (inv : Inv) (t : T)
    (e : SaleEvent T)
    (he : e ∈ (processSnapshot cfg st inv t).1) (hv : e.validated = true) :
    stepPend1 cfg t (tickPrevInv cfg st inv t) inv e.productName
        (st.pendingDecreases e.productName) ≠ [] ∧
    e.timestampUtc = t ∧
    e.inventoryAfter = lookupD inv e.productName 0 ∧
    e.quantityDelta =
      (if stepDelta (tickPrevInv cfg st inv t) inv e.productName < 0 then
        |stepDelta (tickPrevInv cfg st inv t) inv e.productName|
       else |((stepPend1 cfg t (tickPrevInv cfg st inv t) inv e.productName
          (st.pendingDecreases e.productName)).headD (t, 0)).2|) ∧
    e.inventoryBefore =
      (if stepDelta (tickPrevInv cfg st inv t) inv e.productName = 0 then
        lookupD (tickPrevInv cfg st inv t) e.productName 0 + e.quantityDelta
       else lookupD (tickPrevInv cfg st inv t) e.productName 0) := by
  by_cases h2 : 2 ≤ (tickHist cfg st inv t).length
  · rw [processSnapshot_out cfg st inv t h2] at he
    rcases List.mem_append.mp he with hA | hU
    · rw [tickAttributed] at hA
      obtain ⟨p, hp, hpe⟩ := List.mem_filterMap.mp hA
      simp only [stepEmit?] at hpe
      split at hpe
      · rename_i hg
        obtain ⟨hg1, hg2, hg3⟩ := hg
        have he2 := Option.some.inj hpe
        subst he2
        exact ⟨hg1, rfl, rfl, rfl, rfl⟩
      · exact absurd hpe (by simp)
    · rw [tickUnknown] at hU
      split at hU
      · simp only [List.mem_singleton] at hU
        subst hU
        simp at hv
      · simp at hU
  · rw [processSnapshot_noDetect cfg st inv t (by omega)] at he
    simp at he

/-- C2 witness: the amended characterization applied to the confirming
tick of the `{m: 10} → {m: 8} → {m: 7}` run (its `inventory_after`
conjunct, with both hypotheses discharged on the concrete run). -/
theorem c2_amended_witness : (7 : ℤ) = lookupD [("m", 7)] "m" 0 :=
  (c2_amended (T := ℤ) ⟨2, 1, 10, 5⟩
    (processSnapshot ⟨2, 1, 10, 5⟩
      (processSnapshot ⟨2, 1, 10, 5⟩ SalesState.init [("m", 10)] 0).2
      [("m", 8)] 5).2 [("m", 7)] 10
    { productName := "m", quantityDelta := 1, inventoryBefore := 8,
      inventoryAfter := 7, timestampUtc := 10, validated := true }
    (by decide) (by decide)).2.2.1

/-- C6: a tick that contradicts the triggering condition empties the
entity's pending queue within the same tick, in all three state
machines: a positive per-entity delta in the sales engine, a count above
the configured threshold in the low-stock evaluation, and a not-expired
freshness record in the expiration evaluation. -/
theorem c6_contradiction_clears :
    (∀ (cfg : SalesConfig T) (st : SalesState T) (inv : Inv) (t : T) (p : String),
      2 ≤ (tickHist cfg st inv t).length →
      0 < stepDelta (tickPrevInv cfg st inv t) inv p →
      (processSnapshot cfg st inv t).2.pendingDecreases p = []) ∧
    (∀ (cfg : AlertConfig T) (st : AlertState T) (inv : Inv)
       (fr : List (String × Freshness T)) (t : T) (en : String × ℤ),
      (cfg.lowStockThresholds.map Prod.fst).Nodup →
      en ∈ cfg.lowStockThresholds →
      en.2 < lookupD inv en.1 0 →
      (evaluate cfg st inv fr t).2.pendingLowStock en.1 = []) ∧
    (∀ (cfg : AlertConfig T) (st : AlertState T) (inv : Inv)
       (fr : List (String × Freshness T)) (t : T) (en : String × Freshness T),
      (fr.map Prod.fst).Nodup →
      en ∈ fr →
      en.2.isExpired = false →
      (evaluate cfg st inv fr t).2.pendingExpiration en.1 = []) := by
  refine ⟨?_, ?_, ?_⟩
  · intro cfg st inv t p h2 hd
    have hmem : p ∈ allProducts inv (tickPrevInv cfg st inv t) := by
      rw [stepDelta] at hd
      rw [allProducts]
      refine List.mem_dedup.mpr (List.mem_append.mpr ?_)
      by_cases hc : lookupD inv p 0 = 0
      · refine Or.inr (mem_keys_of_lookupD_ne _ _ 0 ?_)
        intro hp2
        rw [hc, hp2] at hd
        omega
      · exact Or.inl (mem_keys_of_lookupD_ne _ _ 0 hc)
    rw [processSnapshot_pend cfg st inv t h2 p, if_pos hmem]
    have hpend1 : stepPend1 cfg t (tickPrevInv cfg st inv t) inv p
        (st.pendingDecreases p) = [] := by
      rw [stepPend1, if_neg (by rintro ⟨hlt, _⟩; omega), if_pos hd]
    split <;> simp [hpend1]
  · intro cfg st inv fr t en hnd hen hgt
    have hpend : (evaluate cfg st inv fr t).2.pendingLowStock en.1 =
        ((cfg.lowStockThresholds.foldl (lowStockStep cfg t inv)
          ([], st.pendingLowStock, st.lastAlertTime, st.alertsSuppressedByCooldown))).2.1 en.1 := rfl
    rw [hpend, lowStockFold_pend_mem cfg t inv _ hnd _ _ _ _ hen]
    have h1 : lowStockPend1 cfg t inv en (st.pendingLowStock en.1) = [] := by
      rw [lowStockPend1, if_neg (not_le.mpr hgt)]
    split <;> simp [h1]
  · intro cfg st inv fr t en hnd hen hex
    have hpend : (evaluate cfg st inv fr t).2.pendingExpiration en.1 =
        ((fr.foldl (expirationStep cfg t)
          ([], st.pendingExpiration,
           (cfg.lowStockThresholds.foldl (lowStockStep cfg t inv)
             ([], st.pendingLowStock, st.lastAlertTime, st.alertsSuppressedByCooldown)).2.2.1,
           (cfg.lowStockThresholds.foldl (lowStockStep cfg t inv)
             ([], st.pendingLowStock, st.lastAlertTime, st.alertsSuppressedByCooldown)).2.2.2))).2.1 en.1 := rfl
    rw [hpend, expirationFold_pend_mem cfg t _ hnd _ _ _ _ hen]
    have h1 : expirationPend1 cfg t en (st.pendingExpiration en.1) = [] := by
      rw [expirationPend1]
      simp [hex]
    split <;> simp [h1]

/-- C6 witness: the sales-engine conjunct applied to a run whose third
tick raises the count from 4 to 6, clearing the pending decrease. -/
theorem c6_contradiction_clears_witness :
    (processSnapshot (T := ℤ) ⟨2, 1, 10, 5⟩
      (processSnapshot ⟨2, 1, 10, 5⟩
        (processSnapshot ⟨2, 1, 10, 5⟩ SalesState.init [("m", 5)] 0).2 [("m", 4)] 5).2
      [("m", 6)] 10).2.pendingDecreases "m" = [] :=
  c6_contradiction_clears.1 ⟨2, 1, 10, 5⟩
    (processSnapshot ⟨2, 1, 10, 5⟩
      (processSnapshot ⟨2, 1, 10, 5⟩ SalesState.init [("m", 5)] 0).2 [("m", 4)] 5).2
    [("m", 6)] 10 "m" (by decide) (by decide)

/-- C7: every low-stock alert `evaluate` emits carries the entity's
current count and configured threshold, the count is at or below the
threshold, the severity is `critical` exactly when the count is `0`, and
any positive (confirmed) count yields `warning`. -/
theorem c7_low_stock_severity (cfg : AlertConfig T) (st : AlertState T) (inv : Inv)
    (fr : List (String × Freshness T)) (t : T) (a : Alert T)
    (ha : a ∈ (evaluate cfg st inv fr t).1) (hty : a.alertType = "low_stock") :
    ∃ threshold : ℤ,
      a.meta = .lowStock (lookupD inv a.productName 0) threshold ∧
      lookupD inv a.productName 0 ≤ threshold ∧
      (a.severity = "critical" ↔ lookupD inv a.productName 0 = 0) ∧
      (0 < lookupD inv a.productName 0 → a.severity = "warning") := by
  rcases evaluate_out_shape cfg st inv fr t ha with ⟨en, hen, pd, lt, he⟩ | ⟨en, hen, pd, lt, he⟩
  · obtain ⟨h1, h2, h3, h4, h5, h6, h7⟩ := lowStockEmit?_shape he
    refine ⟨en.2, ?_, ?_, ?_, ?_⟩
    · rw [h2, h4]
    · rw [h2]; exact h5
    · rw [h2, h6]
      constructor
      · intro hcrit
        by_cases hz : lookupD inv en.1 0 = 0
        · exact hz
        · rw [if_neg hz] at hcrit
          exact absurd hcrit (by decide)
      · intro hz
        rw [if_pos hz]
    · intro hpos
      rw [h2] at hpos
      rw [h6, if_neg (by omega)]
  · obtain ⟨h1, _⟩ := expirationEmit?_shape he
    rw [h1] at hty
    exact absurd hty (by decide)

/-- C7 witness: the severity characterization applied to the critical
alert the second tick of an out-of-stock run emits — its severity is
`critical`, so by the iff the confirmed count is `0`. -/
theorem c7_low_stock_severity_witness :
    lookupD [("mango", (0 : ℤ))] "mango" 0 = 0 := by
  obtain ⟨θ, hm, hle, hiff, hw⟩ := c7_low_stock_severity ⟨[("mango", 3)], 2, 2, 3600⟩
    (evaluate (T := ℤ) ⟨[("mango", 3)], 2, 2, 3600⟩ AlertState.init [("mango", 0)] [] 0).2
    [("mango", 0)] [] 5
    ⟨"low_stock", "mango", "critical", 5, .lowStock 0 3⟩ (by decide) (by decide)
  exact hiff.mp rfl

/-- C10: emitting only unattributed (`validated = false`) events leaves
the per-product cooldown map `last_sale_time` untouched, and on a run of
four products each dropping one unit per 5-second tick
(`min_delta_threshold = 2`, `cooldown_seconds = 10`) an Unknown-entity
sale is emitted on every tick once the history window is full, each a
mere 5 seconds — less than the cooldown — after the previous one. -/
theorem c10_unknown_frame :
    (∀ (cfg : SalesConfig T) (st : SalesState T) (inv : Inv) (t : T),
      (∀ e ∈ (processSnapshot cfg st inv t).1, e.validated = false) →
      ∀ p, (processSnapshot cfg st inv t).2.lastSaleTime p = st.lastSaleTime p) ∧
    (runSales (T := ℤ) ⟨2, 2, 10, 5⟩ SalesState.init
        [([("a", 20), ("b", 20), ("c", 20), ("d", 20)], 0),
         ([("a", 19), ("b", 19), ("c", 19), ("d", 19)], 5),
         ([("a", 18), ("b", 18), ("c", 18), ("d", 18)], 10),
         ([("a", 17), ("b", 17), ("c", 17), ("d", 17)], 15),
         ([("a", 16), ("b", 16), ("c", 16), ("d", 16)], 20),
         ([("a", 15), ("b", 15), ("c", 15), ("d", 15)], 25)] =
      [[], [],
       [⟨"Unknown", 4, 76, 72, 10, false⟩], [⟨"Unknown", 4, 72, 68, 15, false⟩],
       [⟨"Unknown", 4, 68, 64, 20, false⟩], [⟨"Unknown", 4, 64, 60, 25, false⟩]] ∧
     (15 : ℤ) - 10 < 10 ∧ (20 : ℤ) - 15 < 10 ∧ (25 : ℤ) - 20 < 10) := by
  constructor
  · intro cfg st inv t hnv p
    by_cases h2 : 2 ≤ (tickHist cfg st inv t).length
    · rw [processSnapshot_ls cfg st inv t h2]
      by_cases hmem : p ∈ allProducts inv (tickPrevInv cfg st inv t)
      · rw [if_pos hmem]
        rcases hse : stepEmit? cfg t (tickHist cfg st inv t) (tickPrevInv cfg st inv t) inv p
            (st.pendingDecreases p) (st.lastSaleTime p) with _ | e
        · simp
        · exfalso
          have hein : e ∈ (processSnapshot cfg st inv t).1 := by
            rw [processSnapshot_out cfg st inv t h2]
            exact List.mem_append.mpr (Or.inl (by
              rw [tickAttributed]
              exact List.mem_filterMap.mpr ⟨p, hmem, hse⟩))
          have hval := (stepEmit?_shape hse).2.2.1
          rw [hnv e hein] at hval
          exact absurd hval (by decide)
      · rw [if_neg hmem]
    · rw [processSnapshot_noDetect cfg st inv t (by omega)]
  · exact ⟨by decide, by decide, by decide, by decide⟩

/-- C10 witness: the frame conjunct applied to the fourth tick of the
Unknown-only run, for product `a`. -/
theorem c10_unknown_frame_witness :
    (processSnapshot (T := ℤ) ⟨2, 2, 10, 5⟩
      (processSnapshot ⟨2, 2, 10, 5⟩
        (processSnapshot ⟨2, 2, 10, 5⟩
          (processSnapshot ⟨2, 2, 10, 5⟩ SalesState.init
            [("a", 20), ("b", 20), ("c", 20), ("d", 20)] 0).2
          [("a", 19), ("b", 19), ("c", 19), ("d", 19)] 5).2
        [("a", 18), ("b", 18), ("c", 18), ("d", 18)] 10).2
      [("a", 17), ("b", 17), ("c", 17), ("d", 17)] 15).2.lastSaleTime "a" =
    (processSnapshot (T := ℤ) ⟨2, 2, 10, 5⟩
      (processSnapshot ⟨2, 2, 10, 5⟩
        (processSnapshot ⟨2, 2, 10, 5⟩ SalesState.init
          [("a", 20), ("b", 20), ("c", 20), ("d", 20)] 0).2
        [("a", 19), ("b", 19), ("c", 19), ("d", 19)] 5).2
      [("a", 18), ("b", 18), ("c", 18), ("d", 18)] 10).2.lastSaleTime "a" :=
  c10_unknown_frame.1 ⟨2, 2, 10, 5⟩
    (processSnapshot ⟨2, 2, 10, 5⟩
      (processSnapshot ⟨2, 2, 10, 5⟩
        (processSnapshot ⟨2, 2, 10, 5⟩ SalesState.init
          [("a", 20), ("b", 20), ("c", 20), ("d", 20)] 0).2
        [("a", 19), ("b", 19), ("c", 19), ("d", 19)] 5).2
      [("a", 18), ("b", 18), ("c", 18), ("d", 18)] 10).2
    [("a", 17), ("b", 17), ("c", 17), ("d", 17)] 15 (by decide) "a"

/-- C3: when the tick's total delta is negative and no attributed sale
was emitted, an Unknown-entity sale is emitted iff the magnitude reaches
`2 * min_delta_threshold` and the window of `confirm_intervals + 1`
retained snapshots is full with strictly decreasing totals; and when the
magnitude suffices but the full window's totals are not strictly
decreasing, nothing is emitted and `false_positives_filtered` is
incremented by one. -/
theorem c3_unattributed_fallback (cfg : SalesConfig T) (st : SalesState T) (inv : Inv) (t : T)
    (h2 : 2 ≤ (tickHist cfg st inv t).length)
    (hnoatt : ∀ e ∈ (processSnapshot cfg st inv t).1, e.validated = false)
    (hneg : totalInv inv - totalInv (tickPrevInv cfg st inv t) < 0) :
    ((∃ e ∈ (processSnapshot cfg st inv t).1, e.productName = "Unknown") ↔
      (cfg.minDeltaThreshold * 2 ≤ |totalInv inv - totalInv (tickPrevInv cfg st inv t)| ∧
       cfg.confirmIntervals + 1 ≤ (tickHist cfg st inv t).length ∧
       strictlyDecreasing ((takeLast (cfg.confirmIntervals + 1) (tickHist cfg st inv t)).map
         (fun s => totalInv s.2)) = true)) ∧
    (cfg.minDeltaThreshold * 2 ≤ |totalInv inv - totalInv (tickPrevInv cfg st inv t)| →
     strictlyDecreasing ((takeLast (cfg.confirmIntervals + 1) (tickHist cfg st inv t)).map
       (fun s => totalInv s.2)) = false →
     cfg.confirmIntervals + 1 ≤ (tickHist cfg st inv t).length →
     (processSnapshot cfg st inv t).1 = [] ∧
     (processSnapshot cfg st inv t).2.falsePositivesFiltered =
       st.falsePositivesFiltered + 1) := by
  have hA : tickAttributed cfg st inv t = [] := by
    by_contra hne
    obtain ⟨e, he⟩ := List.exists_mem_of_ne_nil _ hne
    have hmem : e ∈ (processSnapshot cfg st inv t).1 := by
      rw [processSnapshot_out cfg st inv t h2]
      exact List.mem_append.mpr (Or.inl he)
    obtain ⟨p, hp, hpe⟩ := List.mem_filterMap.mp (by rw [tickAttributed] at he; exact he)
    have hv := (stepEmit?_shape hpe).2.2.1
    rw [hnoatt e hmem] at hv
    exact absurd hv (by decide)
  have hout : (processSnapshot cfg st inv t).1 = tickUnknown cfg st inv t := by
    rw [processSnapshot_out cfg st inv t h2, hA, List.nil_append]
  constructor
  · rw [hout]
    simp only [tickUnknown]
    constructor
    · rintro ⟨e, hmem, hname⟩
      by_cases hc : totalInv inv - totalInv (tickPrevInv cfg st inv t) < 0 ∧
          tickAttributed cfg st inv t = [] ∧
          (validateTotalDecrease cfg (tickHist cfg st inv t)
            (totalInv inv - totalInv (tickPrevInv cfg st inv t))
            st.falsePositivesFiltered).1 = true
      · exact (validateTotalDecrease_fst _ _ _ _).mp hc.2.2
      · rw [if_neg hc] at hmem
        simp at hmem
    · intro hrhs
      have hval : (validateTotalDecrease cfg (tickHist cfg st inv t)
          (totalInv inv - totalInv (tickPrevInv cfg st inv t))
          st.falsePositivesFiltered).1 = true :=
        (validateTotalDecrease_fst _ _ _ _).mpr hrhs
      rw [if_pos ⟨hneg, hA, hval⟩]
      exact ⟨_, List.mem_singleton_self _, rfl⟩
  · intro hge hstrict hlen
    have hvd := validateTotalDecrease_voided cfg (tickHist cfg st inv t)
      (totalInv inv - totalInv (tickPrevInv cfg st inv t)) st.falsePositivesFiltered
      hge hlen hstrict
    constructor
    · rw [hout]
      simp only [tickUnknown]
      rw [if_neg (by rintro ⟨_, _, hv⟩; rw [hvd] at hv; simp at hv)]
    · rw [processSnapshot_fp cfg st inv t h2, if_pos ⟨hneg, hA⟩, hvd]


/-- C3 witness: four products dropping one unit each per tick
(`min_delta_threshold = 2`): the third tick satisfies the fallback
conditions and emits the Unknown-entity sale. -/
theorem c3_unattributed_fallback_witness :
    ∃ e ∈ (processSnapshot (T := ℤ) ⟨2, 2, 10, 5⟩
      (processSnapshot ⟨2, 2, 10, 5⟩
        (processSnapshot ⟨2, 2, 10, 5⟩ SalesState.init
          [("w", 9), ("x", 9), ("y", 9), ("z", 9)] 0).2
        [("w", 8), ("x", 8), ("y", 8), ("z", 8)] 5).2
      [("w", 7), ("x", 7), ("y", 7), ("z", 7)] 10).1, e.productName = "Unknown" :=
  (c3_unattributed_fallback ⟨2, 2, 10, 5⟩
    (processSnapshot ⟨2, 2, 10, 5⟩
      (processSnapshot ⟨2, 2, 10, 5⟩ SalesState.init
        [("w", 9), ("x", 9), ("y", 9), ("z", 9)] 0).2
      [("w", 8), ("x", 8), ("y", 8), ("z", 8)] 5).2
    [("w", 7), ("x", 7), ("y", 7), ("z", 7)] 10
    (by decide) (by decide) (by decide)).1.mpr ⟨by decide, by decide, by decide⟩


/-- C4 counterexample: with `confirm_intervals = 2`, `cooldown = 100`,
`snapshot_interval = 5`, a product dropping one unit per 5-second tick
accumulates `[(15,-1), (20,-1), (25,-1), (30,-1)]` — four pending
entries, exceeding `confirm_intervals + 1 = 3`: the sales engine's
pending list is pruned by age (`snapshot_interval * (confirm_intervals
+ 2) = 20` seconds), not capped at `confirm_intervals + 1`. -/
theorem c4_counterexample :
    (([([("a", 100)], (0:ℤ)), ([("a", 99)], 5), ([("a", 98)], 10), ([("a", 97)], 15),
        ([("a", 96)], 20), ([("a", 95)], 25), ([("a", 94)], 30)]).foldl
      (fun st x => (processSnapshot (⟨2, 1, 100, 5⟩ : SalesConfig ℤ) st x.1 x.2).2)
      SalesState.init).pendingDecreases "a" =
      [(15, -1), (20, -1), (25, -1), (30, -1)] ∧ ¬((4:ℕ) ≤ 2 + 1) := by decide

/-- C4 (amended): the alert engine's low-stock and expiration pending
deques never exceed `confirm_intervals + 1` entries (the deque drops its
oldest element on overflow), while the sales engine's pending-decrease
list is pruned by age instead: after any detecting tick every retained
entry is younger than `snapshot_interval * (confirm_intervals + 2)`. -/
theorem c4_bounds_amended :
    (∀ (cfg : AlertConfig T) (st : AlertState T) (inv : Inv)
       (fr : List (String × Freshness T)) (t : T),
      (∀ q, (st.pendingLowStock q).length ≤ cfg.lowStockConfirmIntervals + 1) →
      (∀ q, (st.pendingExpiration q).length ≤ cfg.expirationConfirmIntervals + 1) →
      (∀ q, ((evaluate cfg st inv fr t).2.pendingLowStock q).length ≤
          cfg.lowStockConfirmIntervals + 1) ∧
      (∀ q, ((evaluate cfg st inv fr t).2.pendingExpiration q).length ≤
          cfg.expirationConfirmIntervals + 1)) ∧
    (∀ (cfg : SalesConfig T) (st : SalesState T) (inv : Inv) (t : T) (q : String)
       (e : T × ℤ),
      2 ≤ (tickHist cfg st inv t).length →
      e ∈ (processSnapshot cfg st inv t).2.pendingDecreases q →
      t - e.1 < cfg.snapshotInterval * ((cfg.confirmIntervals : T) + 2)) := by
  constructor
  · intro cfg st inv fr t hls hex
    constructor
    · intro q
      have hpend : (evaluate cfg st inv fr t).2.pendingLowStock q =
          ((cfg.lowStockThresholds.foldl (lowStockStep cfg t inv)
            ([], st.pendingLowStock, st.lastAlertTime, st.alertsSuppressedByCooldown))).2.1 q := rfl
      rw [hpend]
      rcases lowStockFold_pend_bound cfg t inv cfg.lowStockThresholds
          ([], st.pendingLowStock, st.lastAlertTime, st.alertsSuppressedByCooldown) q with h | h
      · rw [h]; exact hls q
      · exact h
    · intro q
      have hpend : (evaluate cfg st inv fr t).2.pendingExpiration q =
          ((fr.foldl (expirationStep cfg t)
            ([], st.pendingExpiration,
             (cfg.lowStockThresholds.foldl (lowStockStep cfg t inv)
               ([], st.pendingLowStock, st.lastAlertTime, st.alertsSuppressedByCooldown)).2.2.1,
             (cfg.lowStockThresholds.foldl (lowStockStep cfg t inv)
               ([], st.pendingLowStock, st.lastAlertTime, st.alertsSuppressedByCooldown)).2.2.2))).2.1 q := rfl
      rw [hpend]
      rcases expirationFold_pend_bound cfg t fr _ q with h | h
      · rw [h]; exact hex q
      · exact h
  · intro cfg st inv t q e h2 hmem
    rw [processSnapshot_pend cfg st inv t h2 q] at hmem
    have := List.of_mem_filter hmem
    simpa using this

/-- C4 witness: the age-bound conjunct applied to the oldest pending
entry retained after the counterexample run's final tick. -/
theorem c4_bounds_amended_witness :
    (30 : ℤ) - 15 < 5 * (((2 : ℕ) : ℤ) + 2) :=
  c4_bounds_amended.2 ⟨2, 1, 100, 5⟩
    (([([("a", 100)], (0:ℤ)), ([("a", 99)], 5), ([("a", 98)], 10), ([("a", 97)], 15),
       ([("a", 96)], 20), ([("a", 95)], 25)]).foldl
      (fun st x => (processSnapshot (⟨2, 1, 100, 5⟩ : SalesConfig ℤ) st x.1 x.2).2)
      SalesState.init)
    [("a", 94)] 30 "a" (15, -1) (by decide) (by decide)

/-- C8 counterexample: an `AlertEngine` constructed with an empty
threshold map and `confirm_intervals = 0` does not fail — it runs
normally and silently: three out-of-stock ticks produce no alert at all,
whereas the same ticks with a configured threshold produce a critical
alert on the second tick. -/
theorem c8_counterexample :
    runAlerts (T := ℤ) ⟨[], 0, 0, 3600⟩ AlertState.init
      [([("mango", 0)], [], 0), ([("mango", 0)], [], 5), ([("mango", 0)], [], 10)] =
      [[], [], []] ∧
    runAlerts (T := ℤ) ⟨[("mango", 3)], 2, 2, 3600⟩ AlertState.init
      [([("mango", 0)], [], 0), ([("mango", 0)], [], 5), ([("mango", 0)], [], 10)] =
      [[], [⟨"low_stock", "mango", "critical", 5, .lowStock 0 3⟩], []] := by decide

/-- C8 (amended): construction performs no validation, and an engine
whose threshold map is empty is silently degraded — `evaluate` can only
ever emit expiration alerts, never a low-stock alert, whatever the
inventory. -/
theorem c8_no_validation_amended (cfg : AlertConfig T) (hthr : cfg.lowStockThresholds = [])
    (st : AlertState T) (inv : Inv) (fr : List (String × Freshness T)) (t : T) :
    ∀ a ∈ (evaluate cfg st inv fr t).1, a.alertType = "expiration" := by
  intro a ha
  rcases evaluate_out_shape cfg st inv fr t ha with ⟨en, hen, _⟩ | ⟨en, hen, pd, lt, he⟩
  · rw [hthr] at hen
    simp at hen
  · exact (expirationEmit?_shape he).1

/-- C8 witness: the degraded engine of the counterexample emits no
low-stock alert even for an out-of-stock product. -/
theorem c8_no_validation_amended_witness : ¬ ∃ a ∈ (evaluate (T := ℤ) ⟨[], 0, 0, 3600⟩ AlertState.init
    [("mango", 0)] [] 0).1, a.alertType = "low_stock" := by
  rintro ⟨a, ha, hty⟩
  have h := c8_no_validation_amended ⟨[], 0, 0, 3600⟩ rfl AlertState.init [("mango", 0)] [] 0 a ha
  rw [h] at hty
  exact absurd hty (by decide)

/-- C9: `process_snapshot` is a deterministic function of the
configuration and the snapshot history: two fresh engines fed sequences
that agree on their first `i + 1` snapshots return the same event list
at tick `i` — in particular, replaying the identical sequence on a fresh
engine reproduces the identical event sequence. -/
theorem c9_replay_determinism (cfg : SalesConfig T) (s₁ s₂ : List (Inv × T)) (i : ℕ)
    (h : s₁.take (i + 1) = s₂.take (i + 1)) :
    (runSales cfg SalesState.init s₁).getD i [] =
      (runSales cfg SalesState.init s₂).getD i [] := by
  suffices H : ∀ (i : ℕ) (st : SalesState T) (s₁ s₂ : List (Inv × T)),
      s₁.take (i + 1) = s₂.take (i + 1) →
      (runSales cfg st s₁).getD i [] = (runSales cfg st s₂).getD i [] by
    exact H i SalesState.init s₁ s₂ h
  intro i
  induction i with
  | zero =>
    intro st s₁ s₂ h
    match s₁, s₂ with
    | [], [] => rfl
    | [], (b :: r₂) => simp at h
    | (a :: r₁), [] => simp at h
    | (a :: r₁), (b :: r₂) =>
      have hab : a = b := by simpa using congrArg (fun l => l.headD a) h
      subst hab
      rfl
  | succ n ih =>
    intro st s₁ s₂ h
    match s₁, s₂ with
    | [], [] => rfl
    | [], (b :: r₂) => simp at h
    | (a :: r₁), [] => simp at h
    | (a :: r₁), (b :: r₂) =>
      have hab : a = b := by simpa using congrArg (fun l => l.headD a) h
      subst hab
      have htl : r₁.take (n + 1) = r₂.take (n + 1) := by
        simpa [List.take_succ_cons] using h
      have hL : runSales cfg st (a :: r₁) = (processSnapshot cfg st a.1 a.2).1 ::
          runSales cfg (processSnapshot cfg st a.1 a.2).2 r₁ := rfl
      have hR : runSales cfg st (a :: r₂) = (processSnapshot cfg st a.1 a.2).1 ::
          runSales cfg (processSnapshot cfg st a.1 a.2).2 r₂ := rfl
      rw [hL, hR, List.getD_cons_succ, List.getD_cons_succ]
      exact ih (processSnapshot cfg st a.1 a.2).2 r₁ r₂ htl

/-- C9 witness: extending a two-tick sequence by a third snapshot does
not change the second tick's output. -/
theorem c9_replay_determinism_witness :
    (runSales (T := ℤ) ⟨2, 1, 10, 5⟩ SalesState.init
      [([("m", 5)], 0), ([("m", 4)], 5)]).getD 1 [] =
    (runSales (T := ℤ) ⟨2, 1, 10, 5⟩ SalesState.init
      [([("m", 5)], 0), ([("m", 4)], 5), ([("m", 4)], 10)]).getD 1 [] :=
  c9_replay_determinism ⟨2, 1, 10, 5⟩ _ _ 1 (by decide)


/-- C1 witness: the scenario instantiated at `T := ℤ`, `t0 := 0`. -/
theorem c1_exact_scenario_witness :
    (processSnapshot ⟨2, 1, 10, 5⟩
      (processSnapshot ⟨2, 1, 10, 5⟩
        (processSnapshot (T := ℤ) ⟨2, 1, 10, 5⟩ SalesState.init [("mango", 5)] 0).2
        [("mango", 4)] (0 + 5)).2
      [("mango", 4)] (0 + 10)).1 =
      [{ productName := "mango", quantityDelta := 1, inventoryBefore := 5,
         inventoryAfter := 4, timestampUtc := 0 + 10, validated := true }] :=
  (c1_exact_scenario (T := ℤ) 0).2.2

end IVS

namespace IVS
variable {T : Type} [LinearOrderedCommRing T]

theorem processSnapshot_emit_props (cfg : SalesConfig T) (st : SalesState T) (inv : Inv)
    (t : T) (e : SaleEvent T) (he : e ∈ (processSnapshot cfg st inv t).1)
    (hv : e.validated = true) :
    e.timestampUtc = t ∧
    (processSnapshot cfg st inv t).2.lastSaleTime e.productName = some t ∧
    (st.lastSaleTime e.productName = none ∨
     ∃ t0, st.lastSaleTime e.productName = some t0 ∧ cfg.cooldownSeconds ≤ t - t0) := by
  by_cases h2 : 2 ≤ (tickHist cfg st inv t).length
  · rw [processSnapshot_out cfg st inv t h2] at he
    rcases List.mem_append.mp he with hA | hU
    · rw [tickAttributed] at hA
      obtain ⟨p, hp, hpe⟩ := List.mem_filterMap.mp hA
      obtain ⟨hname, hts, _, hcd⟩ := stepEmit?_shape hpe
      subst hname
      refine ⟨hts, ?_, ?_⟩
      · rw [processSnapshot_ls cfg st inv t h2, if_pos hp, if_pos (by rw [hpe]; rfl)]
      · exact salesCheckCooldown_true hcd
    · rw [tickUnknown] at hU
      split at hU
      · simp only [List.mem_singleton] at hU
        subst hU
        simp at hv
      · simp at hU
  · rw [processSnapshot_noDetect cfg st inv t (by omega)] at he
    simp at he

theorem processSnapshot_ls_frame (cfg : SalesConfig T) (st : SalesState T) (inv : Inv)
    (t : T) (p : String)
    (h : ¬ ∃ e ∈ (processSnapshot cfg st inv t).1, e.validated = true ∧ e.productName = p) :
    (processSnapshot cfg st inv t).2.lastSaleTime p = st.lastSaleTime p := by
  by_cases h2 : 2 ≤ (tickHist cfg st inv t).length
  · rw [processSnapshot_ls cfg st inv t h2]
    by_cases hmem : p ∈ allProducts inv (tickPrevInv cfg st inv t)
    · rw [if_pos hmem]
      rcases hse : stepEmit? cfg t (tickHist cfg st inv t) (tickPrevInv cfg st inv t) inv p
          (st.pendingDecreases p) (st.lastSaleTime p) with _ | e
      · simp
      · exfalso
        refine h ⟨e, ?_, (stepEmit?_shape hse).2.2.1, (stepEmit?_shape hse).1⟩
        rw [processSnapshot_out cfg st inv t h2]
        exact List.mem_append.mpr (Or.inl (by
          rw [tickAttributed]
          exact List.mem_filterMap.mpr ⟨p, hmem, hse⟩))
    · rw [if_neg hmem]
  · rw [processSnapshot_noDetect cfg st inv t (by omega)]

theorem runSales_cooldown_lower (cfg : SalesConfig T) (hcd : 0 ≤ cfg.cooldownSeconds)
    (snaps : List (Inv × T)) :
    ∀ (st : SalesState T) (p : String) (t0 : T),
      st.lastSaleTime p = some t0 →
      ∀ (j : ℕ) (e : SaleEvent T), e ∈ (runSales cfg st snaps).getD j [] →
        e.validated = true → e.productName = p →
        cfg.cooldownSeconds ≤ e.timestampUtc - t0 := by
  induction snaps with
  | nil =>
    intro st p t0 h j e he
    simp [runSales] at he
  | cons a rest ih =>
    intro st p t0 h j e he hv hp
    have hrun : runSales cfg st (a :: rest) = (processSnapshot cfg st a.1 a.2).1 ::
        runSales cfg (processSnapshot cfg st a.1 a.2).2 rest := rfl
    rcases j with _ | n
    · rw [hrun, List.getD_cons_zero] at he
      obtain ⟨hts, _, hcdp⟩ := processSnapshot_emit_props cfg st a.1 a.2 e he hv
      rw [hp, h] at hcdp
      rcases hcdp with hnone | ⟨t1, hsome, hge⟩
      · exact absurd hnone (by simp)
      · have ht1 : t1 = t0 := by injection hsome with hh; exact hh.symm
        rw [hts, ← ht1]
        exact hge
    · rw [hrun, List.getD_cons_succ] at he
      by_cases hq : ∃ e' ∈ (processSnapshot cfg st a.1 a.2).1,
          e'.validated = true ∧ e'.productName = p
      · obtain ⟨e', he', hv', hp'⟩ := hq
        obtain ⟨hts', hls', hcdp'⟩ := processSnapshot_emit_props cfg st a.1 a.2 e' he' hv'
        rw [hp'] at hls' hcdp'
        rw [h] at hcdp'
        have hstep : cfg.cooldownSeconds ≤ a.2 - t0 := by
          rcases hcdp' with hnone | ⟨t1, hsome, hge⟩
          · exact absurd hnone (by simp)
          · have ht1 : t1 = t0 := by injection hsome with hh; exact hh.symm
            rw [← ht1]
            exact hge
        have hrec := ih (processSnapshot cfg st a.1 a.2).2 p a.2 hls' n e he hv hp
        have := add_le_add hrec hstep
        have heq : e.timestampUtc - a.2 + (a.2 - t0) = e.timestampUtc - t0 := by ring
        rw [heq] at this
        linarith
      · have hframe := processSnapshot_ls_frame cfg st a.1 a.2 p hq
        rw [h] at hframe
        exact ih (processSnapshot cfg st a.1 a.2).2 p t0 hframe n e he hv hp

theorem evaluate_out_eq (cfg : AlertConfig T) (st : AlertState T) (inv : Inv)
    (fr : List (String × Freshness T)) (t : T)
    (hnd1 : (cfg.lowStockThresholds.map Prod.fst).Nodup)
    (hnd2 : (fr.map Prod.fst).Nodup) :
    (evaluate cfg st inv fr t).1 =
      cfg.lowStockThresholds.filterMap (fun en => lowStockEmit? cfg t inv en
        (st.pendingLowStock en.1) (st.lastAlertTime "low_stock" en.1)) ++
      fr.filterMap (fun en => expirationEmit? cfg t en
        (st.pendingExpiration en.1) (st.lastAlertTime "expiration" en.1)) := by
  have hsplit : (evaluate cfg st inv fr t).1 =
      (cfg.lowStockThresholds.foldl (lowStockStep cfg t inv)
        ([], st.pendingLowStock, st.lastAlertTime, st.alertsSuppressedByCooldown)).1 ++
      (fr.foldl (expirationStep cfg t)
        ([], st.pendingExpiration,
         (cfg.lowStockThresholds.foldl (lowStockStep cfg t inv)
           ([], st.pendingLowStock, st.lastAlertTime, st.alertsSuppressedByCooldown)).2.2.1,
         (cfg.lowStockThresholds.foldl (lowStockStep cfg t inv)
           ([], st.pendingLowStock, st.lastAlertTime, st.alertsSuppressedByCooldown)).2.2.2)).1 := rfl
  rw [hsplit]
  congr 1
  · have := lowStockFold_fst cfg t inv cfg.lowStockThresholds hnd1 []
      st.pendingLowStock st.lastAlertTime st.alertsSuppressedByCooldown
    rw [this, List.nil_append]
  · have := expirationFold_fst cfg t fr hnd2 [] st.pendingExpiration
      ((cfg.lowStockThresholds.foldl (lowStockStep cfg t inv)
        ([], st.pendingLowStock, st.lastAlertTime, st.alertsSuppressedByCooldown)).2.2.1)
      ((cfg.lowStockThresholds.foldl (lowStockStep cfg t inv)
        ([], st.pendingLowStock, st.lastAlertTime, st.alertsSuppressedByCooldown)).2.2.2)
    rw [this, List.nil_append]
    exact List.filterMap_congr (fun en hen => by
      rw [lowStockFold_lat_ne cfg t inv cfg.lowStockThresholds _
        (by rintro ⟨hc, _⟩; exact absurd hc (by decide))])

theorem evaluate_lat_rfl (cfg : AlertConfig T) (st : AlertState T) (inv : Inv)
    (fr : List (String × Freshness T)) (t : T) :
    (evaluate cfg st inv fr t).2.lastAlertTime =
      (fr.foldl (expirationStep cfg t)
        ([], st.pendingExpiration,
         (cfg.lowStockThresholds.foldl (lowStockStep cfg t inv)
           ([], st.pendingLowStock, st.lastAlertTime, st.alertsSuppressedByCooldown)).2.2.1,
         (cfg.lowStockThresholds.foldl (lowStockStep cfg t inv)
           ([], st.pendingLowStock, st.lastAlertTime, st.alertsSuppressedByCooldown)).2.2.2)).2.2.1 := rfl

theorem evaluate_emit_props (cfg : AlertConfig T) (st : AlertState T) (inv : Inv)
    (fr : List (String × Freshness T)) (t : T)
    (hnd1 : (cfg.lowStockThresholds.map Prod.fst).Nodup)
    (hnd2 : (fr.map Prod.fst).Nodup)
    (a : Alert T) (ha : a ∈ (evaluate cfg st inv fr t).1) :
    a.timestampUtc = t ∧
    (evaluate cfg st inv fr t).2.lastAlertTime a.alertType a.productName = some t ∧
    (st.lastAlertTime a.alertType a.productName = none ∨
     ∃ t0, st.lastAlertTime a.alertType a.productName = some t0 ∧
       cfg.alertCooldownSeconds ≤ t - t0) := by
  rw [evaluate_out_eq cfg st inv fr t hnd1 hnd2] at ha
  rcases List.mem_append.mp ha with hL | hR
  · obtain ⟨en, hen, hem⟩ := List.mem_filterMap.mp hL
    obtain ⟨hty, hname, hts, _, _, _, hcd⟩ := lowStockEmit?_shape hem
    refine ⟨hts, ?_, ?_⟩
    · rw [hty, hname, evaluate_lat_rfl]
      rw [expirationFold_lat_ne cfg t fr _ (by rintro ⟨hc, _⟩; exact absurd hc (by decide))]
      rw [lowStockFold_lat_mem cfg t inv cfg.lowStockThresholds hnd1 _ _ _ _ hen]
      rw [if_pos (by rw [hem]; rfl)]
    · rw [hty, hname]
      exact alertCheckCooldown_fst_true hcd
  · obtain ⟨en, hen, hem⟩ := List.mem_filterMap.mp hR
    obtain ⟨hty, hname, hts, _, _, hcd⟩ := expirationEmit?_shape hem
    refine ⟨hts, ?_, ?_⟩
    · rw [hty, hname, evaluate_lat_rfl]
      have hbase : (cfg.lowStockThresholds.foldl (lowStockStep cfg t inv)
          ([], st.pendingLowStock, st.lastAlertTime, st.alertsSuppressedByCooldown)).2.2.1
          "expiration" en.1 = st.lastAlertTime "expiration" en.1 :=
        lowStockFold_lat_ne cfg t inv cfg.lowStockThresholds _
          (by rintro ⟨hc, _⟩; exact absurd hc (by decide))
      rw [expirationFold_lat_mem cfg t fr hnd2 _ _ _ _ hen, hbase]
      rw [if_pos (by rw [hem]; rfl)]
    · rw [hty, hname]
      exact alertCheckCooldown_fst_true hcd

theorem evaluate_lat_frame (cfg : AlertConfig T) (st : AlertState T) (inv : Inv)
    (fr : List (String × Freshness T)) (t : T)
    (hnd1 : (cfg.lowStockThresholds.map Prod.fst).Nodup)
    (hnd2 : (fr.map Prod.fst).Nodup) (ty p : String)
    (h : ¬ ∃ a ∈ (evaluate cfg st inv fr t).1, a.alertType = ty ∧ a.productName = p) :
    (evaluate cfg st inv fr t).2.lastAlertTime ty p = st.lastAlertTime ty p := by
  rw [evaluate_lat_rfl]
  by_cases hty1 : ty = "low_stock"
  · subst hty1
    rw [expirationFold_lat_ne cfg t fr _ (by rintro ⟨hc, _⟩; exact absurd hc (by decide))]
    by_cases hmem : p ∈ cfg.lowStockThresholds.map Prod.fst
    · obtain ⟨en, hen, hp⟩ := List.mem_map.mp hmem
      subst hp
      rw [lowStockFold_lat_mem cfg t inv cfg.lowStockThresholds hnd1 _ _ _ _ hen]
      rcases hem : lowStockEmit? cfg t inv en (st.pendingLowStock en.1)
          (st.lastAlertTime "low_stock" en.1) with _ | a
      · simp
      · exfalso
        refine h ⟨a, ?_, (lowStockEmit?_shape hem).1, (lowStockEmit?_shape hem).2.1⟩
        rw [evaluate_out_eq cfg st inv fr t hnd1 hnd2]
        exact List.mem_append.mpr (Or.inl (List.mem_filterMap.mpr ⟨en, hen, hem⟩))
    · rw [lowStockFold_lat_ne cfg t inv _ _ (by rintro ⟨_, hb⟩; exact hmem hb)]
  · by_cases hty2 : ty = "expiration"
    · subst hty2
      have hbase : (cfg.lowStockThresholds.foldl (lowStockStep cfg t inv)
          ([], st.pendingLowStock, st.lastAlertTime, st.alertsSuppressedByCooldown)).2.2.1
          "expiration" p = st.lastAlertTime "expiration" p :=
        lowStockFold_lat_ne cfg t inv cfg.lowStockThresholds _
          (by rintro ⟨hc, _⟩; exact absurd hc (by decide))
      by_cases hmem : p ∈ fr.map Prod.fst
      · obtain ⟨en, hen, hp⟩ := List.mem_map.mp hmem
        subst hp
        rw [expirationFold_lat_mem cfg t fr hnd2 _ _ _ _ hen, hbase]
        rcases hem : expirationEmit? cfg t en (st.pendingExpiration en.1)
            (st.lastAlertTime "expiration" en.1) with _ | a
        · simp
        · exfalso
          refine h ⟨a, ?_, (expirationEmit?_shape hem).1, (expirationEmit?_shape hem).2.1⟩
          rw [evaluate_out_eq cfg st inv fr t hnd1 hnd2]
          exact List.mem_append.mpr (Or.inr (List.mem_filterMap.mpr ⟨en, hen, hem⟩))
      · rw [expirationFold_lat_ne cfg t fr _ (by rintro ⟨_, hb⟩; exact hmem hb)]
        exact hbase
    · rw [expirationFold_lat_ne cfg t fr _ (by rintro ⟨hc, _⟩; exact hty2 hc)]
      exact lowStockFold_lat_ne cfg t inv _ _ (by rintro ⟨hc, _⟩; exact hty1 hc)

theorem runAlerts_cooldown_lower (cfg : AlertConfig T) (hcd : 0 ≤ cfg.alertCooldownSeconds)
    (hnd1 : (cfg.lowStockThresholds.map Prod.fst).Nodup)
    (ticks : List (Inv × List (String × Freshness T) × T)) :
    (∀ tk ∈ ticks, ((tk.2.1).map Prod.fst).Nodup) →
    ∀ (st : AlertState T) (ty p : String) (t0 : T),
      st.lastAlertTime ty p = some t0 →
      ∀ (j : ℕ) (a : Alert T), a ∈ (runAlerts cfg st ticks).getD j [] →
        a.alertType = ty → a.productName = p →
        cfg.alertCooldownSeconds ≤ a.timestampUtc - t0 := by
  induction ticks with
  | nil =>
    intro _ st ty p t0 h j a ha
    simp [runAlerts] at ha
  | cons tk rest ih =>
    intro hnds st ty p t0 h j a ha hty hp
    have hnd2 : ((tk.2.1).map Prod.fst).Nodup := hnds tk (List.mem_cons_self _ _)
    have hndr : ∀ tk2 ∈ rest, ((tk2.2.1).map Prod.fst).Nodup :=
      fun tk2 htk2 => hnds tk2 (List.mem_cons_of_mem _ htk2)
    have hrun : runAlerts cfg st (tk :: rest) =
        (evaluate cfg st tk.1 tk.2.1 tk.2.2).1 ::
        runAlerts cfg (evaluate cfg st tk.1 tk.2.1 tk.2.2).2 rest := rfl
    rcases j with _ | n
    · rw [hrun, List.getD_cons_zero] at ha
      obtain ⟨hts, _, hcdp⟩ := evaluate_emit_props cfg st tk.1 tk.2.1 tk.2.2 hnd1 hnd2 a ha
      rw [hty, hp, h] at hcdp
      rcases hcdp with hnone | ⟨t1, hsome, hge⟩
      · exact absurd hnone (by simp)
      · have ht1 : t1 = t0 := by injection hsome with hh; exact hh.symm
        rw [hts, ← ht1]
        exact hge
    · rw [hrun, List.getD_cons_succ] at ha
      by_cases hq : ∃ a' ∈ (evaluate cfg st tk.1 tk.2.1 tk.2.2).1,
          a'.alertType = ty ∧ a'.productName = p
      · obtain ⟨a', ha', hty', hp'⟩ := hq
        obtain ⟨hts', hls', hcdp'⟩ := evaluate_emit_props cfg st tk.1 tk.2.1 tk.2.2 hnd1 hnd2 a' ha'
        rw [hty', hp'] at hls' hcdp'
        rw [h] at hcdp'
        have hstep : cfg.alertCooldownSeconds ≤ tk.2.2 - t0 := by
          rcases hcdp' with hnone | ⟨t1, hsome, hge⟩
          · exact absurd hnone (by simp)
          · have ht1 : t1 = t0 := by injection hsome with hh; exact hh.symm
            rw [← ht1]
            exact hge
        have hrec := ih hndr (evaluate cfg st tk.1 tk.2.1 tk.2.2).2 ty p tk.2.2 hls'
          n a ha hty hp
        have hsum := add_le_add hrec hstep
        have heq : a.timestampUtc - tk.2.2 + (tk.2.2 - t0) = a.timestampUtc - t0 := by ring
        rw [heq] at hsum
        linarith
      · have hframe := evaluate_lat_frame cfg st tk.1 tk.2.1 tk.2.2 hnd1 hnd2 ty p hq
        rw [h] at hframe
        exact ih hndr (evaluate cfg st tk.1 tk.2.1 tk.2.2).2 ty p t0 hframe n a ha hty hp

theorem runSales_spacing (cfg : SalesConfig T) (hcd : 0 ≤ cfg.cooldownSeconds) :
    ∀ (snaps : List (Inv × T)) (st : SalesState T) (i j : ℕ), i < j →
      ∀ (e₁ e₂ : SaleEvent T),
        e₁ ∈ (runSales cfg st snaps).getD i [] →
        e₂ ∈ (runSales cfg st snaps).getD j [] →
        e₁.validated = true → e₂.validated = true →
        e₂.productName = e₁.productName →
        cfg.cooldownSeconds ≤ e₂.timestampUtc - e₁.timestampUtc := by
  intro snaps
  induction snaps with
  | nil =>
    intro st i j hij e₁ e₂ h1
    simp [runSales] at h1
  | cons a rest ih =>
    intro st i j hij e₁ e₂ h1 h2 hv1 hv2 hp
    have hrun : runSales cfg st (a :: rest) = (processSnapshot cfg st a.1 a.2).1 ::
        runSales cfg (processSnapshot cfg st a.1 a.2).2 rest := rfl
    rcases i with _ | m
    · rcases j with _ | n
      · omega
      rw [hrun, List.getD_cons_zero] at h1
      rw [hrun, List.getD_cons_succ] at h2
      obtain ⟨hts1, hls1, _⟩ := processSnapshot_emit_props cfg st a.1 a.2 e₁ h1 hv1
      rw [hts1]
      exact runSales_cooldown_lower cfg hcd rest (processSnapshot cfg st a.1 a.2).2
        e₁.productName a.2 hls1 n e₂ h2 hv2 hp
    · rcases j with _ | n
      · omega
      rw [hrun, List.getD_cons_succ] at h1 h2
      exact ih (processSnapshot cfg st a.1 a.2).2 m n (by omega) e₁ e₂ h1 h2 hv1 hv2 hp

theorem runAlerts_spacing (cfg : AlertConfig T) (hcd : 0 ≤ cfg.alertCooldownSeconds)
    (hnd1 : (cfg.lowStockThresholds.map Prod.fst).Nodup) :
    ∀ (ticks : List (Inv × List (String × Freshness T) × T)),
      (∀ tk ∈ ticks, ((tk.2.1).map Prod.fst).Nodup) →
      ∀ (st : AlertState T) (i j : ℕ), i < j →
      ∀ (a₁ a₂ : Alert T),
        a₁ ∈ (runAlerts cfg st ticks).getD i [] →
        a₂ ∈ (runAlerts cfg st ticks).getD j [] →
        a₂.alertType = a₁.alertType → a₂.productName = a₁.productName →
        cfg.alertCooldownSeconds ≤ a₂.timestampUtc - a₁.timestampUtc := by
  intro ticks
  induction ticks with
  | nil =>
    intro _ st i j hij a₁ a₂ h1
    simp [runAlerts] at h1
  | cons tk rest ih =>
    intro hnds st i j hij a₁ a₂ h1 h2 hty hp
    have hnd2 : ((tk.2.1).map Prod.fst).Nodup := hnds tk (List.mem_cons_self _ _)
    have hndr : ∀ tk2 ∈ rest, ((tk2.2.1).map Prod.fst).Nodup :=
      fun tk2 htk2 => hnds tk2 (List.mem_cons_of_mem _ htk2)
    have hrun : runAlerts cfg st (tk :: rest) =
        (evaluate cfg st tk.1 tk.2.1 tk.2.2).1 ::
        runAlerts cfg (evaluate cfg st tk.1 tk.2.1 tk.2.2).2 rest := rfl
    rcases i with _ | m
    · rcases j with _ | n
      · omega
      rw [hrun, List.getD_cons_zero] at h1
      rw [hrun, List.getD_cons_succ] at h2
      obtain ⟨hts1, hls1, _⟩ := evaluate_emit_props cfg st tk.1 tk.2.1 tk.2.2 hnd1 hnd2 a₁ h1
      rw [hts1]
      exact runAlerts_cooldown_lower cfg hcd hnd1 rest hndr
        (evaluate cfg st tk.1 tk.2.1 tk.2.2).2 a₁.alertType a₁.productName tk.2.2 hls1
        n a₂ h2 hty hp
    · rcases j with _ | n
      · omega
      rw [hrun, List.getD_cons_succ] at h1 h2
      exact ih hndr (evaluate cfg st tk.1 tk.2.1 tk.2.2).2 m n (by omega) a₁ a₂ h1 h2 hty hp

/-- C5 counterexample: with `cooldown_seconds = 100` and `snapshot_interval = 5`,
the steady decline `{m: 10, 8, 6, 4, 2}` makes the Unknown-entity fallback emit
sale events at `t = 15` and `t = 20` — two events of the same `(sale, Unknown)`
key only 5 seconds apart, far inside the 100-second cooldown window: the
fallback branch of `_detect_attributed_sales` never consults `_check_cooldown`. -/
theorem c5_counterexample :
    ((⟨"Unknown", 2, 6, 4, 15, false⟩ : SaleEvent ℤ) ∈
      (runSales ⟨2, 1, 100, 5⟩ SalesState.init
        [([("m", 10)], 0), ([("m", 8)], 5), ([("m", 6)], 10),
         ([("m", 4)], 15), ([("m", 2)], 20)]).getD 3 []) ∧
    ((⟨"Unknown", 2, 4, 2, 20, false⟩ : SaleEvent ℤ) ∈
      (runSales ⟨2, 1, 100, 5⟩ SalesState.init
        [([("m", 10)], 0), ([("m", 8)], 5), ([("m", 6)], 10),
         ([("m", 4)], 15), ([("m", 2)], 20)]).getD 4 []) ∧
    (20 : ℤ) - 15 < 100 := by decide

/-- C5 (amended): the cooldown guarantee holds for validated (attributed) sale
events and for both alert kinds, but not for the Unknown-entity fallback. For
every run of the sales engine from its initial state with a nonnegative
cooldown, any two validated sale events for the same product emitted on
distinct ticks are at least `cooldown_seconds` apart; and for every run of the
alert engine from its initial state with a nonnegative cooldown (and duplicate-
free threshold and freshness keys), any two alerts with the same
`(alert_type, product_name)` key emitted on distinct ticks are at least
`alert_cooldown_seconds` apart. -/
theorem c5_cooldown_amended :
    (∀ (cfg : SalesConfig T), 0 ≤ cfg.cooldownSeconds →
      ∀ (snaps : List (Inv × T)) (i j : ℕ), i < j →
      ∀ (e₁ e₂ : SaleEvent T),
        e₁ ∈ (runSales cfg SalesState.init snaps).getD i [] →
        e₂ ∈ (runSales cfg SalesState.init snaps).getD j [] →
        e₁.validated = true → e₂.validated = true →
        e₂.productName = e₁.productName →
        cfg.cooldownSeconds ≤ e₂.timestampUtc - e₁.timestampUtc) ∧
    (∀ (cfg : AlertConfig T), 0 ≤ cfg.alertCooldownSeconds →
      (cfg.lowStockThresholds.map Prod.fst).Nodup →
      ∀ (ticks : List (Inv × List (String × Freshness T) × T)),
        (∀ tk ∈ ticks, ((tk.2.1).map Prod.fst).Nodup) →
      ∀ (i j : ℕ), i < j →
      ∀ (a₁ a₂ : Alert T),
        a₁ ∈ (runAlerts cfg AlertState.init ticks).getD i [] →
        a₂ ∈ (runAlerts cfg AlertState.init ticks).getD j [] →
        a₂.alertType = a₁.alertType → a₂.productName = a₁.productName →
        cfg.alertCooldownSeconds ≤ a₂.timestampUtc - a₁.timestampUtc) :=
  ⟨fun cfg hcd snaps i j hij e₁ e₂ h1 h2 hv1 hv2 hp =>
    runSales_spacing cfg hcd snaps SalesState.init i j hij e₁ e₂ h1 h2 hv1 hv2 hp,
   fun cfg hcd hnd1 ticks hnds i j hij a₁ a₂ h1 h2 hty hp =>
    runAlerts_spacing cfg hcd hnd1 ticks hnds AlertState.init i j hij a₁ a₂ h1 h2 hty hp⟩

/-- C5 witness: the sales conjunct applied to the run
`{mango: 5, 4, 4, 3, 3}` at 5-second ticks with a 10-second cooldown, whose
validated emissions fall at `t = 10` (tick 2) and `t = 20` (tick 4). -/
theorem c5_cooldown_amended_witness :
    (10 : ℤ) ≤ 20 - 10 :=
  (@c5_cooldown_amended ℤ _).1 ⟨2, 1, 10, 5⟩ (by decide)
    [([("mango", 5)], 0), ([("mango", 4)], 5), ([("mango", 4)], 10),
     ([("mango", 3)], 15), ([("mango", 3)], 20)] 2 4 (by decide)
    ⟨"mango", 1, 5, 4, 10, true⟩ ⟨"mango", 1, 4, 3, 20, true⟩
    (by decide) (by decide) rfl rfl rfl

end IVS
